import Mathlib

/-!
Shallow embedding of the kalshi trading bot core (src/bot/model.py,
src/bot/executor.py, src/bot/strategy.py, src/bot/learner.py) and proofs
about the spec's claims.  Machine floats are embedded as exact rationals
(for bookkeeping arithmetic) or reals (for the probability model); the
standard normal CDF used via scipy.stats.norm.cdf is embedded as the
mathematical CDF of the standard normal density.
-/

open MeasureTheory Set

namespace Model

/-- Standard normal density, the mathematical content of scipy's norm.pdf. -/
noncomputable def normalPdf (x : ℝ) : ℝ := Real.exp (-(x ^ 2) / 2) / Real.sqrt (2 * Real.pi)

/-- Standard normal CDF, the mathematical content of scipy's norm.cdf. -/
noncomputable def Phi (z : ℝ) : ℝ := ∫ x in Iic z, normalPdf x

/-- Python's round() (round half to even), as used by the source on floats. -/
def pyRound {α : Type} [LinearOrderedField α] [FloorRing α] (x : α) : ℤ :=
  if x - ⌊x⌋ < 1/2 then ⌊x⌋
  else if 1/2 < x - ⌊x⌋ then ⌊x⌋ + 1
  else if ⌊x⌋ % 2 = 0 then ⌊x⌋ else ⌊x⌋ + 1

-- ── src/bot/model.py constants ─────────────────────────────────────

def GAME_LENGTH_MIN : ℝ := 40

def SIGMA : ℝ := 12

def HOME_ADVANTAGE : ℝ := 3.5

/-- The inline spread-dampening weight computed in win_probability when
pregame_spread is nonzero (model.py lines 36-42). -/
noncomputable def dampenFactor (pregame_spread : ℝ) : ℝ :=
  let abs_spread := |pregame_spread|
  if abs_spread ≤ 4 then 1
  else if abs_spread ≤ 8 then 1 - 0.1 * (abs_spread - 4)
  else 0.5

/-- model.py win_probability. -/
noncomputable def win_probability (lead minutes_remaining : ℝ) (home : Bool)
    (pregame_spread : ℝ) : ℝ :=
  if minutes_remaining ≤ 0 then
    (if 0 < lead then 1 else if lead = 0 then 1/2 else 0)
  else
    let t_frac := minutes_remaining / GAME_LENGTH_MIN
    let expected_remaining_margin :=
      if pregame_spread ≠ 0 then pregame_spread * t_frac * dampenFactor pregame_spread
      else if home then HOME_ADVANTAGE * t_frac else -HOME_ADVANTAGE * t_frac
    let effective_lead := lead + expected_remaining_margin
    let sigma_remaining := SIGMA * Real.sqrt t_frac
    if sigma_remaining < 0.01 then
      (if 0 < effective_lead then 1 else if effective_lead = 0 then 1/2 else 0)
    else Phi (effective_lead / sigma_remaining)

/-- model.py fair_value_cents. -/
noncomputable def fair_value_cents (lead minutes_remaining : ℝ) (home : Bool)
    (pregame_spread : ℝ) : ℤ :=
  max 1 (min 99 (pyRound (win_probability lead minutes_remaining home pregame_spread * 100)))

/-- model.py delta_per_point (home defaults to True in both inner calls). -/
noncomputable def delta_per_point (lead minutes_remaining pregame_spread : ℝ) : ℝ :=
  win_probability (lead + 1) minutes_remaining true pregame_spread -
    win_probability lead minutes_remaining true pregame_spread

/-- model.py mean_reversion_estimate (pure rational arithmetic). -/
def mean_reversion_estimate (current_lead pregame_spread minutes_remaining : ℚ) : ℚ :=
  let t_played := 40 - minutes_remaining
  if t_played ≤ 0 then 0
  else
    let expected_lead := pregame_spread * (t_played / 40)
    let excess := current_lead - expected_lead
    let beta : ℚ := 0.75;
    (-excess) * (1 - beta) * (minutes_remaining / 40)

end Model

namespace Exec

-- ── src/bot/executor.py execution parameters ───────────────────────

def TARGET_BANKROLL_PCT : ℚ := 10

def MIN_ENTRY_PRICE : ℚ := 25

def MAX_COST_CENTS : ℚ := 75

def MIN_SIGNAL_STRENGTH : ℚ := 5

def MAX_POSITIONS : ℕ := 5

def MIN_EDGE : ℚ := 6

def MAX_EDGE : ℚ := 18

def MIN_MINUTES_REMAINING : ℚ := 8

def ORDER_TIMEOUT : ℚ := 45

def FILL_CHECK_INTERVAL : ℚ := 15

def TICKER_COOLDOWN : ℚ := 120

def GAME_COOLDOWN : ℚ := 300

def MAX_LOSS_PER_CONTRACT : ℚ := 8

def ALLOWED_SERIES : String := "KXNCAAMBGAME"

/-- executor.py DEFAULT_EXITS dict (and the shape of any tuned exits dict). -/
structure Exits where
  stop_loss_pct : ℚ
  take_profit_pct : ℚ
  trailing_stop_pct : ℚ
  trailing_activate_pct : ℚ
  time_exit : ℚ
  edge_exit : ℚ

def DEFAULT_EXITS : Exits :=
  { stop_loss_pct := 15, take_profit_pct := 15, trailing_stop_pct := 5,
    trailing_activate_pct := 8, time_exit := 300, edge_exit := -1 }

/-- Incoming strategy signal as consumed by Executor.on_signal (defaults of
the .get calls are baked into the fields). -/
structure Signal where
  ticker : String
  strength : ℚ
  edge : ℚ
  side : String
  market_price : Option ℚ
  mins_left : ℚ
  model_fv : ℚ
  strategy : String

/-- executor.py Position (the fields live trading mutates). -/
structure Position where
  ticker : String
  side : String
  entry_price : ℚ
  contracts : ℤ
  total_cost : ℚ
  entry_time : ℚ
  filled : Bool
  fill_price : Option ℚ
  exit_price : Option ℚ
  exit_reason : Option String
  pnl : Option ℚ
  pnl_pct : Option ℚ
  last_model_fv : ℚ
  last_edge : ℚ
  last_fill_check : ℚ
  edge_updates : ℕ
  game_event : String
  peak_pnl_pct : ℚ

/-- executor.py _extract_game_event: ticker.rsplit("-", 1)[0]. -/
def extractGameEvent (t : String) : String :=
  let parts := t.splitOn "-"
  if 2 ≤ parts.length then String.intercalate "-" parts.dropLast else t

/-- Python round(x, 1) on the embedded rationals. -/
def pyRound1 (x : ℚ) : ℚ := ((Model.pyRound (x * 10) : ℤ) : ℚ) / 10

/-- executor.py _calc_contracts. -/
def calcContracts (price_cents target_cents : ℚ) : ℤ :=
  if price_cents ≤ 0 ∨ target_cents ≤ 0 then 1
  else min (max 1 (Model.pyRound (target_cents / price_cents))) 5

/-- Lookup with default used for recent_tickers/recent_events .get(k, 0). -/
def getQ (l : List (String × ℚ)) (k : String) : ℚ := (l.lookup k).getD 0

/-- Dict store: overwrite or add a key. -/
def setQ (l : List (String × ℚ)) (k : String) (v : ℚ) : List (String × ℚ) :=
  (k, v) :: l.eraseP (fun e => e.1 == k)

def lookupQ (l : List (String × ℚ)) (k : String) : Option ℚ := l.lookup k

/-- Executor state (the client itself is abstracted to a presence flag; the
balance returned by get_balance and the fills returned by get_fills enter as
operation inputs). -/
structure EState where
  positions : List (String × Position)
  recentTickers : List (String × ℚ)
  recentEvents : List (String × ℚ)
  knownKalshi : List String
  enabled : Bool
  hasClient : Bool
  bankroll : ℚ
  bankrollTs : ℚ
  targetPosition : ℚ
  exits : Exits
  totalPnl : ℚ
  totalInvested : ℚ
  tradeCount : ℕ

/-- executor.py Executor._refresh_bankroll (balance query result passed in;
none models a raised exception or missing data). -/
def refreshBankroll (s : EState) (now : ℚ) (bal : Option ℚ) : EState :=
  if ¬s.hasClient then s
  else if now - s.bankrollTs < 60 then s
  else
    match bal with
    | none => s
    | some b =>
      { s with
        bankroll := b, bankrollTs := now,
        targetPosition :=
          min (max 30 ((Model.pyRound (b * TARGET_BANKROLL_PCT / 100) : ℤ) : ℚ)) 150 }

/-- Position constructed by Executor._place_order on a successful order. -/
def mkPosition (ticker side : String) (entry_price : ℚ) (contracts : ℤ)
    (sig : Signal) (now : ℚ) : Position :=
  { ticker := ticker, side := side, entry_price := entry_price,
    contracts := contracts, total_cost := entry_price * contracts,
    entry_time := now, filled := false, fill_price := none, exit_price := none,
    exit_reason := none, pnl := none, pnl_pct := none,
    last_model_fv := sig.model_fv, last_edge := sig.edge, last_fill_check := 0,
    edge_updates := 0, game_event := extractGameEvent ticker, peak_pnl_pct := 0 }

/-- executor.py Executor.on_signal: the admission gate chain; the state is
returned unchanged on any rejection (except that a rejection after the
bankroll refresh keeps the refreshed bankroll, as in the source). -/
def onSignal (s : EState) (sig : Signal) (now : ℚ) (bal : Option ℚ)
    (orderOk : Bool) : EState :=
  if ¬s.enabled ∨ ¬s.hasClient then s
  else if sig.strength < MIN_SIGNAL_STRENGTH ∨ sig.edge < MIN_EDGE then s
  else if MAX_EDGE < sig.edge then s
  else if sig.mins_left < MIN_MINUTES_REMAINING then s
  else if ¬sig.ticker.startsWith ALLOWED_SERIES then s
  else if MAX_POSITIONS ≤ s.positions.length then s
  else if (∃ e ∈ s.positions, e.1 = sig.ticker) ∨ sig.ticker ∈ s.knownKalshi then s
  else if 1 ≤ s.positions.countP
      (fun e => decide (e.2.game_event = extractGameEvent sig.ticker)) then s
  else if now - getQ s.recentTickers sig.ticker < TICKER_COOLDOWN then s
  else if now - getQ s.recentEvents (extractGameEvent sig.ticker) < GAME_COOLDOWN then s
  else
    let mp := sig.market_price.getD 0
    if sig.market_price = none ∨ mp < MIN_ENTRY_PRICE ∨ 100 - MIN_ENTRY_PRICE < mp then s
    else
      let unit_price :=
        if sig.side = "yes" then min (mp + 1) MAX_COST_CENTS
        else min (100 - mp + 1) MAX_COST_CENTS
      if MAX_COST_CENTS < unit_price ∨ unit_price < MIN_ENTRY_PRICE then s
      else if sig.edge - 2 < 1 then s
      else
        let s1 := refreshBankroll s now bal
        let contracts := calcContracts unit_price s1.targetPosition
        let current_exposure := (s1.positions.map (fun e => e.2.total_cost)).sum
        let new_exposure := unit_price * (contracts : ℚ)
        let max_exposure := if 0 < s1.bankroll then s1.bankroll * 0.60 else 500
        if max_exposure < current_exposure + new_exposure then s1
        else if orderOk then
          { s1 with positions := s1.positions ++
              [(sig.ticker, mkPosition sig.ticker sig.side unit_price contracts sig now)] }
        else s1

-- ── Exit evaluation (executor.py check_positions lines 411-448) ────

/-- Current per-contract value of a filled position; a missing quote falls
back to the entry price (current_prices.get(ticker, pos.entry_price)). -/
def currentOf (pos : Position) (priceOpt : Option ℚ) : ℚ :=
  let current_yes := priceOpt.getD pos.entry_price
  if pos.side = "yes" then current_yes else 100 - current_yes

def pnlPerOf (pos : Position) (priceOpt : Option ℚ) : ℚ :=
  currentOf pos priceOpt - pos.entry_price

def pnlTotalOf (pos : Position) (priceOpt : Option ℚ) : ℚ :=
  pnlPerOf pos priceOpt * (pos.contracts : ℚ)

def pnlPctOf (pos : Position) (priceOpt : Option ℚ) : ℚ :=
  if 0 < pos.entry_price then pnlPerOf pos priceOpt / pos.entry_price * 100 else 0

/-- High-water-mark update performed each cycle before the exit rules run. -/
def peakStep (peak pnl_pct : ℚ) : ℚ := if peak < pnl_pct then pnl_pct else peak

/-- The exit decision chain, in source order: model exit, take profit,
trailing stop, stop loss, time exit. -/
def exitChain (ex : Exits) (edge_updates : ℕ) (last_edge pnl_pct peak pnl_per age : ℚ) :
    Option String :=
  if 2 ≤ edge_updates ∧ last_edge ≤ ex.edge_exit then some "model_exit"
  else if ex.take_profit_pct ≤ pnl_pct then some "take_profit"
  else if ex.trailing_activate_pct ≤ peak ∧ pnl_pct ≤ peak - ex.trailing_stop_pct then
    some "trailing_stop"
  else if pnl_pct ≤ -ex.stop_loss_pct ∨ pnl_per ≤ -MAX_LOSS_PER_CONTRACT then
    some "stop_loss"
  else if ex.time_exit < age then some "time_exit"
  else none

/-- The same five rules as an ordered list of (reason, fired) pairs. -/
def exitRules (ex : Exits) (edge_updates : ℕ) (last_edge pnl_pct peak pnl_per age : ℚ) :
    List (String × Bool) :=
  [("model_exit", decide (2 ≤ edge_updates ∧ last_edge ≤ ex.edge_exit)),
   ("take_profit", decide (ex.take_profit_pct ≤ pnl_pct)),
   ("trailing_stop",
     decide (ex.trailing_activate_pct ≤ peak ∧ pnl_pct ≤ peak - ex.trailing_stop_pct)),
   ("stop_loss", decide (pnl_pct ≤ -ex.stop_loss_pct ∨ pnl_per ≤ -MAX_LOSS_PER_CONTRACT)),
   ("time_exit", decide (ex.time_exit < age))]

/-- First-match-wins evaluation of an ordered rule list. -/
def firstMatch (rules : List (String × Bool)) : Option String :=
  (rules.find? (fun r => r.2)).map (fun r => r.1)

structure ExitEval where
  pnl_per : ℚ
  pnl_total : ℚ
  pnl_pct : ℚ
  peak : ℚ
  reason : Option String

/-- One cycle of exit evaluation for a filled position. -/
def evalFilledPosition (ex : Exits) (pos : Position) (priceOpt : Option ℚ)
    (now : ℚ) : ExitEval :=
  let pnl_pct := pnlPctOf pos priceOpt
  let peak := peakStep pos.peak_pnl_pct pnl_pct
  { pnl_per := pnlPerOf pos priceOpt,
    pnl_total := pnlTotalOf pos priceOpt,
    pnl_pct := pnl_pct,
    peak := peak,
    reason := exitChain ex pos.edge_updates pos.last_edge pnl_pct peak
      (pnlPerOf pos priceOpt) (now - pos.entry_time) }

/-- executor.py _exit_position record updates on the Position itself. -/
def applyExit (pos : Position) (ev : ExitEval) (r : String) (current : ℚ) : Position :=
  { pos with
    peak_pnl_pct := ev.peak, exit_price := some current,
    exit_reason := some r, pnl := some ev.pnl_total,
    pnl_pct := some (pyRound1 ev.pnl_pct) }

/-- Fill detection pass over one position entry (fills query result given). -/
def fillUpdate (now : ℚ) (fills : List String) (e : String × Position) :
    String × Position :=
  if e.2.filled then e
  else if e.1 ∈ fills then
    (e.1, { e.2 with
      last_fill_check := now, filled := true,
      fill_price := some e.2.entry_price })
  else (e.1, { e.2 with last_fill_check := now })

/-- Position management pass over one entry: cancel unfilled on timeout, or
evaluate exits on a filled position.  The Bool marks entries to close. -/
def processEntry (ex : Exits) (prices : List (String × ℚ)) (now : ℚ)
    (e : String × Position) : (String × Position) × Bool :=
  if ¬e.2.filled then
    if ORDER_TIMEOUT < now - e.2.entry_time then (e, true) else (e, false)
  else
    let ev := evalFilledPosition ex e.2 (lookupQ prices e.1) now
    match ev.reason with
    | none => ((e.1, { e.2 with peak_pnl_pct := ev.peak }), false)
    | some r => ((e.1, applyExit e.2 ev r (currentOf e.2 (lookupQ prices e.1))), true)

/-- executor.py Executor.check_positions.  prices is the current_prices map,
fillsRes the get_fills result (none models no check or an exception).  The
closed_trades batch list and the _tune_exits adjustment it can trigger every
few closed trades only rewrite the exit thresholds for later cycles and are
outside the modelled state. -/
def checkPositions (s : EState) (now : ℚ) (prices : List (String × ℚ))
    (fillsRes : Option (List String)) : EState :=
  if s.positions.isEmpty then s
  else
    let ps1 :=
      if (∃ e ∈ s.positions, e.2.filled = false) ∧
          (∃ e ∈ s.positions, e.2.filled = false ∧
            FILL_CHECK_INTERVAL ≤ now - e.2.last_fill_check) then
        match fillsRes with
        | none => s.positions
        | some fills => s.positions.map (fillUpdate now fills)
      else s.positions
    let evald := ps1.map (processEntry s.exits prices now)
    let closed := evald.filter (fun p => p.2 = true)
    let kept := (evald.filter (fun p => p.2 = false)).map Prod.fst
    let exited := closed.filter (fun p => p.1.2.exit_reason ≠ none)
    { s with
      positions := kept,
      recentTickers := closed.foldl (fun acc p => setQ acc p.1.1 now) s.recentTickers,
      recentEvents := closed.foldl (fun acc p =>
        setQ acc (extractGameEvent p.1.1)
          (if p.1.2.exit_reason = some "stop_loss" then now + 300 else now))
        s.recentEvents,
      totalPnl := s.totalPnl + (exited.map (fun p => (p.1.2.pnl).getD 0)).sum,
      totalInvested := s.totalInvested + (exited.map (fun p => p.1.2.total_cost)).sum,
      tradeCount := s.tradeCount + exited.length }

/-- The two operations claim C5 quantifies over. -/
inductive ExOp where
  | sig (sg : Signal) (now : ℚ) (bal : Option ℚ) (orderOk : Bool)
  | check (now : ℚ) (prices : List (String × ℚ)) (fills : Option (List String))

def step (s : EState) (op : ExOp) : EState :=
  match op with
  | .sig sg now bal ok => onSignal s sg now bal ok
  | .check now prices fills => checkPositions s now prices fills

def run (s0 : EState) (ops : List ExOp) : EState := ops.foldl step s0

/-- The (ticker, game_event) view of a position entry; check_positions never
changes it, on_signal only appends fresh ones. -/
def pairKey (e : String × Position) : String × String := (e.1, e.2.game_event)

/-- The executor-state invariant behind claim C5. -/
def InvAux (s : EState) : Prop :=
  (∀ e ∈ s.positions, e.2.game_event = extractGameEvent e.1) ∧
  (s.positions.map (fun e => e.2.game_event)).Nodup ∧
  s.positions.length ≤ MAX_POSITIONS

end Exec

namespace Strat

-- ── src/bot/strategy.py ────────────────────────────────────────────

/-- strategy.py COOLDOWNS dict, read through COOLDOWNS.get(strategy, 120). -/
def cooldownFor (strategy : String) : ℚ :=
  if strategy = "mean_reversion" then 300
  else if strategy = "momentum" then 120
  else if strategy = "halftime_edge" then 600
  else if strategy = "gamma_scalp" then 60
  else if strategy = "spread_capture" then 180
  else if strategy = "stale_line" then 90
  else if strategy = "closing_line" then 45
  else 120

/-- Python int() truncation toward zero on a rational. -/
def pyInt (x : ℚ) : ℤ := x.num / (x.den : ℤ)

/-- Python truthiness-based `a or default` on an optional number: None and 0
both fall through to the default. -/
def pyOr (o : Option ℚ) (d : ℚ) : ℚ :=
  match o with
  | none => d
  | some v => if v = 0 then d else v

/-- Game snapshot as consumed from the feed dicts (the .get defaults are baked
into the fields). -/
structure Game where
  espn_id : String
  name : String
  home_score : ℤ
  away_score : ℤ
  lead : ℤ
  minutes_remaining : ℚ
  period : ℤ

structure MarketData where
  last_price : Option ℚ
  yes_bid : Option ℚ
  yes_ask : Option ℚ
  volume : ℚ

structure GameCtx where
  name : String
  espn_id : String
  score : String
  lead : ℤ
  minutes_remaining : ℚ
  period : ℤ

/-- strategy.py StrategySignal (reason strings abbreviated: the formatted
rationale text carries no logic). -/
structure SSignal where
  ts : ℚ
  strategy : String
  ticker : String
  side : String
  strength : ℤ
  edge : ℚ
  reason : String
  market_price : ℚ
  model_fv : ℚ
  game_context : GameCtx

structure PriceSnap where
  ts : ℚ
  price : ℚ
  bid : ℚ
  ask : ℚ
  volume : ℚ
  model_fv : ℚ
  edge : ℚ

/-- Dict get with default. -/
def lookupD {α β : Type} [BEq α] (l : List (α × β)) (k : α) (d : β) : β :=
  (l.lookup k).getD d

/-- Dict store: overwrite or add a key. -/
def upsert {α β : Type} [BEq α] (l : List (α × β)) (k : α) (v : β) : List (α × β) :=
  (k, v) :: l.eraseP (fun e => e.1 == k)

/-- defaultdict(list) append. -/
def appendAt {α β : Type} [BEq α] (l : List (α × List β)) (k : α) (v : β) :
    List (α × List β) :=
  upsert l k (lookupD l k [] ++ [v])

/-- StrategyEngine state (strategy_stats counters and the jsonl signal file
are bookkeeping with no feedback into the engine and are not modelled). -/
structure SEState where
  signals : List SSignal
  price_history : List (String × List PriceSnap)
  game_states : List (String × List Game)
  edge_history : List (String × List (ℚ × ℚ × ℚ × ℚ))
  last_signal_ts : List ((String × String) × ℚ)
  prev_prices : List (String × ℚ)

def seInit : SEState :=
  { signals := [], price_history := [], game_states := [], edge_history := [],
    last_signal_ts := [], prev_prices := [] }

/-- StrategyEngine._on_cooldown. -/
def onCooldown (st : SEState) (strategy ticker : String) (now : ℚ) : Bool :=
  now - lookupD st.last_signal_ts (strategy, ticker) 0 < cooldownFor strategy

/-- StrategyEngine._emit_signal: records the timestamp for the pair and
appends the signal. -/
def emitSignal (st : SEState) (sig : SSignal) : SEState :=
  { st with
    last_signal_ts := upsert st.last_signal_ts (sig.strategy, sig.ticker) sig.ts,
    signals := st.signals ++ [sig] }

/-- Strategy 1: mean reversion (strategy.py _check_mean_reversion). -/
def checkMeanReversion (st : SEState) (ticker : String) (game : Game)
    (fv edge price : ℚ) (ctx : GameCtx) (now : ℚ) : SEState :=
  if onCooldown st "mean_reversion" ticker now then st
  else
    let lead := game.lead
    let mins := game.minutes_remaining
    if mins < 5 ∨ 35 < mins then st
    else
      let _reversion := Model.mean_reversion_estimate (lead : ℚ) 0 mins
      if |lead| < 8 ∨ |edge| < 4 then st
      else
        emitSignal st
          { ts := now, strategy := "mean_reversion", ticker := ticker,
            side := if 0 < edge then "yes" else "no",
            strength := min 10 (pyInt (|edge| / 2) + pyInt ((|lead| : ℚ) / 5)),
            edge := |edge|, reason := "mean reversion",
            market_price := price, model_fv := fv, game_context := ctx }

def calcRun (w : List Game) : ℤ :=
  match w.head?, w.getLast? with
  | some a, some b => (b.home_score - a.home_score) - (b.away_score - a.away_score)
  | _, _ => 0

/-- Strategy 2: momentum over two overlapping windows (_check_momentum). -/
def checkMomentum (st : SEState) (ticker : String) (game : Game)
    (fv edge price : ℚ) (ctx : GameCtx) (now : ℚ) : SEState :=
  if onCooldown st "momentum" ticker now then st
  else
    let history := lookupD st.game_states game.espn_id []
    if history.length < 6 then st
    else
      let recent1 := (history.drop (history.length - 6)).take 4
      let recent2 := history.drop (history.length - 4)
      let run1 := calcRun recent1
      let run2 := calcRun recent2
      if |run2| < 5 ∨ ¬((0 < run1) ↔ (0 < run2)) then st
      else
        let run := run2
        if 0 < run ∧ 2 < edge then
          emitSignal st
            { ts := now, strategy := "momentum", ticker := ticker, side := "yes",
              strength := min 8 |run|, edge := edge, reason := "home run sustained",
              market_price := price, model_fv := fv, game_context := ctx }
        else if run < 0 ∧ edge < -2 then
          emitSignal st
            { ts := now, strategy := "momentum", ticker := ticker, side := "no",
              strength := min 8 |run|, edge := |edge|, reason := "away run sustained",
              market_price := price, model_fv := fv, game_context := ctx }
        else st

/-- Strategy 3: halftime edge (_check_halftime_edge). -/
def checkHalftimeEdge (st : SEState) (ticker : String) (game : Game)
    (fv edge price : ℚ) (ctx : GameCtx) (now : ℚ) : SEState :=
  if onCooldown st "halftime_edge" ticker now then st
  else
    if ¬((game.period = 1 ∧ game.minutes_remaining ≤ 2) ∨
        (game.period = 2 ∧ 18 ≤ game.minutes_remaining)) then st
    else if |edge| < 4 then st
    else
      emitSignal st
        { ts := now, strategy := "halftime_edge", ticker := ticker,
          side := if 0 < edge then "yes" else "no",
          strength := min 10 (pyInt (|edge| / 1.5)),
          edge := |edge|, reason := "halftime edge",
          market_price := price, model_fv := fv, game_context := ctx }

open Classical in
/-- Strategy 4: gamma scalping in the final minutes (_check_gamma_scalp);
delta_per_point is the real-valued model function. -/
noncomputable def checkGammaScalp (st : SEState) (ticker : String) (game : Game)
    (fv edge price : ℚ) (ctx : GameCtx) (now : ℚ) : SEState :=
  if onCooldown st "gamma_scalp" ticker now then st
  else
    let mins := game.minutes_remaining
    let lead := game.lead
    if 8 < mins ∨ mins < 1 then st
    else
      let delta := Model.delta_per_point (lead : ℝ) (mins : ℝ) 0
      if |delta| < 0.04 ∨ 6 < |lead| ∨ |edge| < 2 then st
      else
        emitSignal st
          { ts := now, strategy := "gamma_scalp", ticker := ticker,
            side := if 0 < edge then "yes" else "no",
            strength := min 10 ⌊|delta| * 120⌋,
            edge := |edge|, reason := "gamma zone",
            market_price := price, model_fv := fv, game_context := ctx }

/-- Strategy 5: spread capture (_check_spread_capture). -/
def checkSpreadCapture (st : SEState) (ticker : String) (mkt : MarketData)
    (fv edge price : ℚ) (ctx : GameCtx) (now : ℚ) : SEState :=
  if onCooldown st "spread_capture" ticker now then st
  else
    let bid := pyOr mkt.yes_bid 0
    let ask := pyOr mkt.yes_ask 100
    let spread := ask - bid
    if spread < 5 ∨ 25 < spread then st
    else if ¬(bid < fv ∧ fv < ask) then st
    else
      let edge_to_bid := fv - bid
      let edge_to_ask := ask - fv
      let side := if edge_to_ask < edge_to_bid then "yes" else "no"
      let our_edge := if edge_to_ask < edge_to_bid then edge_to_bid else edge_to_ask
      if our_edge < 3 then st
      else
        emitSignal st
          { ts := now, strategy := "spread_capture", ticker := ticker,
            side := side, strength := min 8 (pyInt our_edge),
            edge := our_edge, reason := "wide spread with interior fair value",
            market_price := price, model_fv := fv, game_context := ctx }

open Classical in
/-- Strategy 6: stale line after a score change (_check_stale_line). -/
noncomputable def checkStaleLine (st : SEState) (ticker : String) (game : Game)
    (fv edge price : ℚ) (ctx : GameCtx) (now : ℚ) : SEState :=
  if onCooldown st "stale_line" ticker now then st
  else
    let history := lookupD st.game_states game.espn_id []
    if history.length < 2 then st
    else
      let prev_game := history.getD (history.length - 2) game
      if (prev_game.home_score, prev_game.away_score) =
          (game.home_score, game.away_score) then st
      else if (st.prev_prices.lookup ticker) = none then st
      else
        let prev_price := (st.prev_prices.lookup ticker).getD 0
        if 2 < |price - prev_price| then st
        else
          let points_scored :=
            |(game.home_score + game.away_score) -
              (prev_game.home_score + prev_game.away_score)|
          let expected_move :=
            |Model.delta_per_point (game.lead : ℝ) (game.minutes_remaining : ℝ) 0| *
              (points_scored : ℝ) * 100
          if expected_move < 3 ∨ |edge| < 3 then st
          else
            emitSignal st
              { ts := now, strategy := "stale_line", ticker := ticker,
                side := if 0 < edge then "yes" else "no",
                strength := min 9 ⌊expected_move / 2⌋,
                edge := |edge|, reason := "price unmoved after score change",
                market_price := price, model_fv := fv, game_context := ctx }

/-- Strategy 7: closing-line convergence (_check_closing_line). -/
def checkClosingLine (st : SEState) (ticker : String) (game : Game)
    (fv edge price : ℚ) (ctx : GameCtx) (now : ℚ) : SEState :=
  if onCooldown st "closing_line" ticker now then st
  else
    if 3 < game.minutes_remaining ∨ game.minutes_remaining < 0.5 then st
    else if |game.lead| < 3 then st
    else if |edge| < 5 then st
    else
      emitSignal st
        { ts := now, strategy := "closing_line", ticker := ticker,
          side := if 0 < edge then "yes" else "no",
          strength := min 10 (pyInt (|edge| / 1.5) + 2),
          edge := |edge|, reason := "closing convergence",
          market_price := price, model_fv := fv, game_context := ctx }

/-- strategy.py StrategyEngine.on_price_update: record histories, run all
seven detectors in order, then update prev_prices. -/
noncomputable def onPriceUpdate (st : SEState) (ticker : String) (mkt : MarketData)
    (game : Game) (model_fv edge : ℚ) (now : ℚ) : SEState :=
  let price := pyOr mkt.last_price (pyOr mkt.yes_bid 50)
  let bid := pyOr mkt.yes_bid 0
  let ask := pyOr mkt.yes_ask 100
  let st1 : SEState :=
    { st with
      price_history := appendAt st.price_history ticker
        { ts := now, price := price, bid := bid, ask := ask,
          volume := mkt.volume, model_fv := model_fv, edge := edge },
      game_states := appendAt st.game_states game.espn_id game,
      edge_history := appendAt st.edge_history ticker (now, model_fv, price, edge) }
  let ctx : GameCtx :=
    { name := game.name, espn_id := game.espn_id,
      score := toString game.away_score ++ "-" ++ toString game.home_score,
      lead := game.lead, minutes_remaining := game.minutes_remaining,
      period := game.period }
  let st2 := checkMeanReversion st1 ticker game model_fv edge price ctx now
  let st3 := checkMomentum st2 ticker game model_fv edge price ctx now
  let st4 := checkHalftimeEdge st3 ticker game model_fv edge price ctx now
  let st5 := checkGammaScalp st4 ticker game model_fv edge price ctx now
  let st6 := checkSpreadCapture st5 ticker mkt model_fv edge price ctx now
  let st7 := checkStaleLine st6 ticker game model_fv edge price ctx now
  let st8 := checkClosingLine st7 ticker game model_fv edge price ctx now
  { st8 with prev_prices := upsert st8.prev_prices ticker price }

/-- One observation fed to the engine by the driving loop. -/
structure Obs where
  ticker : String
  mkt : MarketData
  game : Game
  model_fv : ℚ
  edge : ℚ
  now : ℚ

noncomputable def seStep (st : SEState) (o : Obs) : SEState :=
  onPriceUpdate st o.ticker o.mkt o.game o.model_fv o.edge o.now

noncomputable def seRun (st0 : SEState) (obs : List Obs) : SEState :=
  obs.foldl seStep st0

/-- The separation property claim C6 asserts between any two signals for the
same (strategy, ticker) pair, listed in emission order. -/
def Sep (a b : SSignal) : Prop :=
  a.strategy = b.strategy → a.ticker = b.ticker →
    cooldownFor a.strategy ≤ b.ts - a.ts

/-- Engine invariant: every recorded signal timestamp is dominated by the
last_signal_ts entry for its pair, all entries are at most the current time,
and already-emitted signals are pairwise separated. -/
def SEInv (st : SEState) (T : ℚ) : Prop :=
  (∀ sig ∈ st.signals,
    sig.ts ≤ lookupD st.last_signal_ts (sig.strategy, sig.ticker) 0) ∧
  (∀ e ∈ st.last_signal_ts, e.2 ≤ T) ∧
  List.Pairwise Sep st.signals

end Strat

namespace Learner

-- ── src/bot/learner.py SessionAnalyzer._score_strategies ───────────

/-- One graded signal as produced by _grade_signals (only the fields
_score_strategies reads). -/
structure Grade where
  strategy : String
  pnl_5m : Option ℚ
  edge : ℚ

/-- The by_strat grouping of _score_strategies for one strategy name. -/
def gradesFor (grades : List Grade) (strat : String) : List Grade :=
  grades.filter (fun g => g.strategy = strat)

/-- graded = the signals with a non-null 5-minute P&L; pnls = their values. -/
def gradedOf (gs : List Grade) : List ℚ := gs.filterMap (fun g => g.pnl_5m)

def sampleMean (l : List ℚ) : ℚ := l.sum / l.length

/-- Sample variance with the n-1 denominator, as computed in the source. -/
def sampleVariance (l : List ℚ) : ℚ :=
  (l.map (fun p => (p - sampleMean l) ^ 2)).sum / ((l.length : ℚ) - 1)

/-- The Sharpe-like ratio of _score_strategies: mean over
sqrt(variance) when the variance is positive, mean over 1 otherwise,
0 with fewer than two graded samples. -/
noncomputable def sharpeOf (pnls : List ℚ) : ℝ :=
  if 2 ≤ pnls.length then
    let mean_pnl := sampleMean pnls
    let variance := sampleVariance pnls
    let std_pnl : ℝ := if 0 < variance then Real.sqrt (variance : ℝ) else 1
    (mean_pnl : ℝ) / std_pnl
  else 0

/-- Modelled from the spec claim: the sample standard deviation of the graded
P&Ls (square root of the n-1 variance), used to compare the claimed formula
mean/std against the code's sharpeOf. -/
noncomputable def sampleStdDev (pnls : List ℚ) : ℝ :=
  Real.sqrt ((sampleVariance pnls : ℝ))

/-- Python round(x, 2) on a real. -/
noncomputable def round2R (x : ℝ) : ℝ := ((Model.pyRound (x * 100) : ℤ) : ℝ) / 100

structure StratScore where
  total_signals : ℕ
  graded : ℕ
  wins : ℕ
  losses : ℕ
  win_rate : ℚ
  total_pnl_5m : ℚ
  avg_pnl_5m : ℚ
  avg_edge_claimed : ℚ
  sharpe : ℝ
  grade : String

open Classical in
/-- The per-strategy score record built by _score_strategies. -/
noncomputable def scoreFor (gs : List Grade) : StratScore :=
  let graded := gradedOf gs
  let wins := (graded.filter (fun p => 0 < p)).length
  let losses := (graded.filter (fun p => p < 0)).length
  let total_pnl := graded.sum
  let avg_edge := (gs.map (fun g => g.edge)).sum / (max 1 gs.length : ℕ)
  let avg_pnl := total_pnl / (max 1 graded.length : ℕ)
  let sharpe := sharpeOf graded
  { total_signals := gs.length, graded := graded.length, wins := wins,
    losses := losses,
    win_rate := Exec.pyRound1 ((wins : ℚ) / (max 1 (wins + losses) : ℕ) * 100),
    total_pnl_5m := Exec.pyRound1 total_pnl,
    avg_pnl_5m := Exec.pyRound1 avg_pnl,
    avg_edge_claimed := Exec.pyRound1 avg_edge,
    sharpe := round2R sharpe,
    grade := if 1 < sharpe then "A" else if 0.5 < sharpe then "B"
      else if 0 < sharpe then "C" else if -0.5 < sharpe then "D" else "F" }

end Learner

/-- The executor state right after construction with no pre-existing Kalshi
positions (Executor.__init__): empty position map, default exits, initial
target position 60 cents. -/
def initialState : Exec.EState :=
  { positions := [], recentTickers := [], recentEvents := [], knownKalshi := [],
    enabled := true, hasClient := true, bankroll := 0, bankrollTs := 0,
    targetPosition := 60, exits := Exec.DEFAULT_EXITS, totalPnl := 0,
    totalInvested := 0, tradeCount := 0 }

/-- Exit parameter set and position used to witness claim C1 (a state where
the take-profit and stop-loss conditions hold simultaneously). -/
def tpslExits : Exec.Exits :=
  { stop_loss_pct := -20, take_profit_pct := 10, trailing_stop_pct := 5,
    trailing_activate_pct := 8, time_exit := 300, edge_exit := -1 }

def tpslPos : Exec.Position :=
  { ticker := "KXNCAAMBGAME-TEST-HOME", side := "yes", entry_price := 40,
    contracts := 1, total_cost := 40, entry_time := 0, filled := true,
    fill_price := some 40, exit_price := none, exit_reason := none,
    pnl := none, pnl_pct := none, last_model_fv := 50, last_edge := 5,
    last_fill_check := 0, edge_updates := 0,
    game_event := "KXNCAAMBGAME-TEST", peak_pnl_pct := 0 }

/-- A filled no-side position entered at 40 cents, used to refute claim C9. -/
def noSidePos : Exec.Position :=
  { ticker := "KXNCAAMBGAME-TEST-AWAY", side := "no", entry_price := 40,
    contracts := 1, total_cost := 40, entry_time := 0, filled := true,
    fill_price := some 40, exit_price := none, exit_reason := none,
    pnl := none, pnl_pct := none, last_model_fv := 50, last_edge := 0,
    last_fill_check := 0, edge_updates := 0,
    game_event := "KXNCAAMBGAME-TEST", peak_pnl_pct := 0 }

/-- A filled yes-side position entered at 40 cents, used in witnesses. -/
def yesPos : Exec.Position :=
  { ticker := "KXNCAAMBGAME-TEST-HOME", side := "yes", entry_price := 40,
    contracts := 2, total_cost := 80, entry_time := 0, filled := true,
    fill_price := some 40, exit_price := none, exit_reason := none,
    pnl := none, pnl_pct := none, last_model_fv := 50, last_edge := 5,
    last_fill_check := 0, edge_updates := 0,
    game_event := "KXNCAAMBGAME-TEST", peak_pnl_pct := 0 }

/-- Concrete observations used to witness claim C6. -/
def obsA : Strat.Obs :=
  { ticker := "KXNCAAMBGAME-TEST-HOME",
    mkt := { last_price := some 50, yes_bid := some 49, yes_ask := some 52,
             volume := 10 },
    game := { espn_id := "401", name := "A at B", home_score := 30,
              away_score := 28, lead := 2, minutes_remaining := 12, period := 2 },
    model_fv := 55, edge := 5, now := 0 }

def obsB : Strat.Obs := { obsA with now := 100 }

namespace Model

lemma normalPdf_pos (x : ℝ) : 0 < normalPdf x := by
  apply div_pos (Real.exp_pos _)
  exact Real.sqrt_pos.mpr (by positivity)

lemma normalPdf_eq (x : ℝ) :
    normalPdf x = (Real.sqrt (2 * Real.pi))⁻¹ * Real.exp (-(1/2 : ℝ) * x ^ 2) := by
  unfold normalPdf
  rw [div_eq_inv_mul]
  congr 2
  ring

lemma integrable_normalPdf : Integrable normalPdf := by
  have h : Integrable fun x : ℝ => Real.exp (-(1/2 : ℝ) * x ^ 2) :=
    integrable_exp_neg_mul_sq (by norm_num)
  have h2 := h.const_mul (Real.sqrt (2 * Real.pi))⁻¹
  refine h2.congr ?_
  filter_upwards with x
  exact (normalPdf_eq x).symm

lemma integral_normalPdf : (∫ x : ℝ, normalPdf x) = 1 := by
  have hπ : (0 : ℝ) < Real.sqrt (2 * Real.pi) := Real.sqrt_pos.mpr (by positivity)
  calc (∫ x : ℝ, normalPdf x)
      = ∫ x : ℝ, (Real.sqrt (2 * Real.pi))⁻¹ * Real.exp (-(1/2 : ℝ) * x ^ 2) := by
        congr 1; funext x; exact normalPdf_eq x
    _ = (Real.sqrt (2 * Real.pi))⁻¹ * ∫ x : ℝ, Real.exp (-(1/2 : ℝ) * x ^ 2) :=
        integral_mul_left _ _
    _ = (Real.sqrt (2 * Real.pi))⁻¹ * Real.sqrt (Real.pi / (1/2)) := by
        rw [integral_gaussian]
    _ = 1 := by
        rw [show Real.pi / (1/2 : ℝ) = 2 * Real.pi by ring]
        exact inv_mul_cancel₀ (ne_of_gt hπ)

lemma Phi_strictMono : StrictMono Phi := by
  intro a b hab
  have hIa : IntegrableOn normalPdf (Iic a) := integrable_normalPdf.integrableOn
  have hIb : IntegrableOn normalPdf (Iic b) := integrable_normalPdf.integrableOn
  have hsub : Phi b - Phi a = ∫ x in a..b, normalPdf x :=
    intervalIntegral.integral_Iic_sub_Iic hIa hIb
  have hpos : 0 < ∫ x in a..b, normalPdf x :=
    intervalIntegral.intervalIntegral_pos_of_pos
      integrable_normalPdf.intervalIntegrable normalPdf_pos hab
  linarith [hsub ▸ hpos]

lemma Phi_mono : Monotone Phi := Phi_strictMono.monotone

lemma Phi_injective : Function.Injective Phi := Phi_strictMono.injective

lemma Phi_zero : Phi 0 = 1/2 := by
  have hsymm : (∫ x in Iic (0:ℝ), normalPdf x) = ∫ x in Ioi (0:ℝ), normalPdf x := by
    have h1 : (∫ x in Iic (0:ℝ), normalPdf (-x)) = ∫ x in Ioi (-(0:ℝ)), normalPdf x :=
      integral_comp_neg_Iic 0 normalPdf
    have h2 : (∫ x in Iic (0:ℝ), normalPdf (-x)) = ∫ x in Iic (0:ℝ), normalPdf x := by
      congr 1; funext x; unfold normalPdf; congr 2; ring
    rw [← h2, h1, neg_zero]
  have htot : (∫ x in Iic (0:ℝ), normalPdf x) + (∫ x in Ioi (0:ℝ), normalPdf x)
      = ∫ x : ℝ, normalPdf x :=
    intervalIntegral.integral_Iic_add_Ioi integrable_normalPdf.integrableOn
      integrable_normalPdf.integrableOn
  rw [integral_normalPdf] at htot
  unfold Phi
  linarith [hsymm ▸ htot]

lemma Phi_gt_half {z : ℝ} (hz : 0 < z) : 1/2 < Phi z := Phi_zero ▸ Phi_strictMono hz

lemma Phi_lt_half {z : ℝ} (hz : z < 0) : Phi z < 1/2 := Phi_zero ▸ Phi_strictMono hz

lemma pyRound_le_ceil {α : Type} [LinearOrderedField α] [FloorRing α] (x : α) :
    pyRound x ≤ ⌊x⌋ + 1 := by
  unfold pyRound
  split_ifs <;> omega

lemma floor_le_pyRound {α : Type} [LinearOrderedField α] [FloorRing α] (x : α) :
    ⌊x⌋ ≤ pyRound x := by
  unfold pyRound
  split_ifs <;> omega

lemma pyRound_mono {α : Type} [LinearOrderedField α] [FloorRing α] :
    Monotone (pyRound (α := α)) := by
  intro x y hxy
  rcases lt_or_eq_of_le (Int.floor_le_floor hxy) with hf | hf
  · calc pyRound x ≤ ⌊x⌋ + 1 := pyRound_le_ceil x
      _ ≤ ⌊y⌋ := by omega
      _ ≤ pyRound y := floor_le_pyRound y
  · have hfr : x - ⌊x⌋ ≤ y - ⌊y⌋ := by rw [hf]; linarith
    unfold pyRound
    rw [hf]
    split_ifs <;> first | omega | linarith

lemma pyRound_intCast {α : Type} [LinearOrderedField α] [FloorRing α] (n : ℤ) :
    pyRound ((n : α)) = n := by
  unfold pyRound
  rw [Int.floor_intCast]
  split_ifs with h1 h2 h3
  · rfl
  · exfalso; rw [sub_self] at h2; linarith
  · rfl
  · exfalso; rw [sub_self] at h1; exact h1 (by norm_num)

lemma win_probability_home_zero (lead m : ℝ) (hm : 0 < m) :
    win_probability lead m true 0 =
      (if SIGMA * Real.sqrt (m / GAME_LENGTH_MIN) < 0.01 then
        (if 0 < lead + HOME_ADVANTAGE * (m / GAME_LENGTH_MIN) then 1
         else if lead + HOME_ADVANTAGE * (m / GAME_LENGTH_MIN) = 0 then 1/2 else 0)
       else Phi ((lead + HOME_ADVANTAGE * (m / GAME_LENGTH_MIN)) /
          (SIGMA * Real.sqrt (m / GAME_LENGTH_MIN)))) := by
  rw [win_probability]
  rw [if_neg (not_le.mpr hm)]
  norm_num

lemma sigma_remaining_pos {m : ℝ} (h : ¬ SIGMA * Real.sqrt (m / GAME_LENGTH_MIN) < 0.01) :
    0 < SIGMA * Real.sqrt (m / GAME_LENGTH_MIN) := by
  have := not_lt.mp h
  linarith [this]

lemma winProb_home_zero_gt_half {lead m : ℝ} (hm : 0 < m)
    (h : 0 < lead + HOME_ADVANTAGE * (m / GAME_LENGTH_MIN)) :
    1/2 < win_probability lead m true 0 := by
  rw [win_probability_home_zero lead m hm]
  split_ifs with hs
  · norm_num
  · exact Phi_gt_half (div_pos h (sigma_remaining_pos hs))

lemma winProb_home_zero_eq_half {lead m : ℝ} (hm : 0 < m)
    (h : lead + HOME_ADVANTAGE * (m / GAME_LENGTH_MIN) = 0) :
    win_probability lead m true 0 = 1/2 := by
  rw [win_probability_home_zero lead m hm]
  split_ifs with hs hp
  · linarith
  · rfl
  · rw [h, zero_div, Phi_zero]

lemma winProb_home_zero_lt_half {lead m : ℝ} (hm : 0 < m)
    (h : lead + HOME_ADVANTAGE * (m / GAME_LENGTH_MIN) < 0) :
    win_probability lead m true 0 < 1/2 := by
  rw [win_probability_home_zero lead m hm]
  split_ifs with hs hp hz
  · linarith
  · linarith
  · norm_num
  · exact Phi_lt_half (div_neg_of_neg_of_pos h (sigma_remaining_pos hs))

lemma pyRound_fifty_le {x : ℝ} (h : (50:ℝ) ≤ x) : (50:ℤ) ≤ pyRound x := by
  have := pyRound_mono h
  rwa [show ((50:ℝ)) = ((50:ℤ):ℝ) by norm_num, pyRound_intCast] at this

lemma pyRound_le_fifty {x : ℝ} (h : x ≤ (50:ℝ)) : pyRound x ≤ (50:ℤ) := by
  have := pyRound_mono h
  rwa [show ((50:ℝ)) = ((50:ℤ):ℝ) by norm_num, pyRound_intCast] at this

lemma fair_value_ge_50 {lead m S : ℝ} {home : Bool}
    (h : 1/2 < win_probability lead m home S) :
    50 ≤ fair_value_cents lead m home S := by
  unfold fair_value_cents
  have h1 : (50:ℤ) ≤ pyRound (win_probability lead m home S * 100) :=
    pyRound_fifty_le (by linarith)
  have h2 : (50:ℤ) ≤ min 99 (pyRound (win_probability lead m home S * 100)) :=
    le_min (by norm_num) h1
  exact le_trans h2 (le_max_right _ _)

lemma fair_value_le_50 {lead m S : ℝ} {home : Bool}
    (h : win_probability lead m home S < 1/2) :
    fair_value_cents lead m home S ≤ 50 := by
  unfold fair_value_cents
  have h1 : pyRound (win_probability lead m home S * 100) ≤ (50:ℤ) :=
    pyRound_le_fifty (by linarith)
  exact max_le (by norm_num) (le_trans (min_le_right _ _) h1)

lemma fair_value_eq_50 {lead m S : ℝ} {home : Bool}
    (h : win_probability lead m home S = 1/2) :
    fair_value_cents lead m home S = 50 := by
  unfold fair_value_cents
  rw [h]
  rw [show ((1:ℝ)/2 * 100) = ((50:ℤ):ℝ) by norm_num, pyRound_intCast]
  norm_num

lemma winProb_mono_lead (m S : ℝ) (home : Bool) {a b : ℝ} (hab : a ≤ b) :
    win_probability a m home S ≤ win_probability b m home S := by
  have hphi : ∀ x y : ℝ, x ≤ y → ¬ SIGMA * Real.sqrt (m / GAME_LENGTH_MIN) < 0.01 →
      Phi (x / (SIGMA * Real.sqrt (m / GAME_LENGTH_MIN))) ≤
        Phi (y / (SIGMA * Real.sqrt (m / GAME_LENGTH_MIN))) := by
    intro x y hxy hns
    exact Phi_mono ((div_le_div_iff_of_pos_right (sigma_remaining_pos hns)).mpr hxy)
  rw [win_probability, win_probability]
  rcases le_or_lt m 0 with hm | hm
  · rw [if_pos hm, if_pos hm]
    split_ifs <;>
      first
        | linarith
        | (exfalso
           exact (by assumption : ¬_ = (0:ℝ)) (le_antisymm (by linarith) (by linarith)))
  · rw [if_neg (not_le.mpr hm), if_neg (not_le.mpr hm)]
    dsimp only
    split_ifs <;>
      first
        | linarith
        | exact hphi _ _ (by linarith) (by assumption)
        | (exfalso
           exact (by assumption : ¬_ = (0:ℝ)) (le_antisymm (by linarith) (by linarith)))

lemma fair_value_mono_lead (m S : ℝ) (home : Bool) {a b : ℝ} (hab : a ≤ b) :
    fair_value_cents a m home S ≤ fair_value_cents b m home S := by
  unfold fair_value_cents
  have hp := winProb_mono_lead m S home hab
  have h1 : pyRound (win_probability a m home S * 100) ≤
      pyRound (win_probability b m home S * 100) := pyRound_mono (by linarith)
  exact max_le_max le_rfl (min_le_min le_rfl h1)

lemma sqrt_half_large : (0.7:ℝ) ≤ Real.sqrt (20 / GAME_LENGTH_MIN) := by
  rw [Real.le_sqrt' (by norm_num)]
  rw [GAME_LENGTH_MIN]
  norm_num

lemma sigma_at_twenty_not_small : ¬ SIGMA * Real.sqrt (20 / GAME_LENGTH_MIN) < 0.01 := by
  have h := sqrt_half_large
  rw [SIGMA]
  push_neg
  nlinarith [h]

end Model

namespace Exec

lemma fillUpdate_pairKey (now : ℚ) (fills : List String) (e : String × Position) :
    pairKey (fillUpdate now fills e) = pairKey e := by
  unfold fillUpdate
  split_ifs <;> rfl

lemma processEntry_pairKey (ex : Exits) (prices : List (String × ℚ)) (now : ℚ)
    (e : String × Position) :
    pairKey (processEntry ex prices now e).1 = pairKey e := by
  unfold processEntry
  split_ifs <;>
    first
      | rfl
      | (dsimp only
         cases (evalFilledPosition ex e.2 (lookupQ prices e.1) now).reason <;> rfl)

lemma refreshBankroll_positions (s : EState) (now : ℚ) (bal : Option ℚ) :
    (refreshBankroll s now bal).positions = s.positions := by
  unfold refreshBankroll
  split_ifs <;> try rfl
  cases bal <;> rfl

set_option maxHeartbeats 2000000 in
lemma onSignal_positions_cases (s : EState) (sig : Signal) (now : ℚ) (bal : Option ℚ)
    (ok : Bool) :
    (onSignal s sig now bal ok).positions = s.positions ∨
    (s.positions.length < MAX_POSITIONS ∧
      (∀ e ∈ s.positions, ¬ e.2.game_event = extractGameEvent sig.ticker) ∧
      ∃ p : Position,
        (onSignal s sig now bal ok).positions = s.positions ++ [(sig.ticker, p)] ∧
        p.game_event = extractGameEvent sig.ticker) := by
  unfold onSignal
  by_cases h1 : ¬s.enabled = true ∨ ¬s.hasClient = true
  case pos => rw [if_pos h1]; exact Or.inl rfl
  rw [if_neg h1]
  by_cases h2 : sig.strength < MIN_SIGNAL_STRENGTH ∨ sig.edge < MIN_EDGE
  case pos => rw [if_pos h2]; exact Or.inl rfl
  rw [if_neg h2]
  by_cases h3 : MAX_EDGE < sig.edge
  case pos => rw [if_pos h3]; exact Or.inl rfl
  rw [if_neg h3]
  by_cases h4 : sig.mins_left < MIN_MINUTES_REMAINING
  case pos => rw [if_pos h4]; exact Or.inl rfl
  rw [if_neg h4]
  by_cases h5 : ¬sig.ticker.startsWith ALLOWED_SERIES = true
  case pos => rw [if_pos h5]; exact Or.inl rfl
  rw [if_neg h5]
  by_cases h6 : MAX_POSITIONS ≤ s.positions.length
  case pos => rw [if_pos h6]; exact Or.inl rfl
  rw [if_neg h6]
  by_cases h7 : (∃ e ∈ s.positions, e.1 = sig.ticker) ∨ sig.ticker ∈ s.knownKalshi
  case pos => rw [if_pos h7]; exact Or.inl rfl
  rw [if_neg h7]
  by_cases h8 : 1 ≤ s.positions.countP
      (fun e => decide (e.2.game_event = extractGameEvent sig.ticker))
  case pos => rw [if_pos h8]; exact Or.inl rfl
  rw [if_neg h8]
  by_cases h9 : now - getQ s.recentTickers sig.ticker < TICKER_COOLDOWN
  case pos => rw [if_pos h9]; exact Or.inl rfl
  rw [if_neg h9]
  by_cases h10 : now - getQ s.recentEvents (extractGameEvent sig.ticker) < GAME_COOLDOWN
  case pos => rw [if_pos h10]; exact Or.inl rfl
  rw [if_neg h10]
  try dsimp only
  by_cases h11 : sig.market_price = none ∨ sig.market_price.getD 0 < MIN_ENTRY_PRICE ∨
      100 - MIN_ENTRY_PRICE < sig.market_price.getD 0
  case pos => rw [if_pos h11]; exact Or.inl rfl
  rw [if_neg h11]
  try dsimp only
  by_cases h12 : MAX_COST_CENTS <
      (if sig.side = "yes" then min (sig.market_price.getD 0 + 1) MAX_COST_CENTS
       else min (100 - sig.market_price.getD 0 + 1) MAX_COST_CENTS) ∨
      (if sig.side = "yes" then min (sig.market_price.getD 0 + 1) MAX_COST_CENTS
       else min (100 - sig.market_price.getD 0 + 1) MAX_COST_CENTS) < MIN_ENTRY_PRICE
  case pos => rw [if_pos h12]; exact Or.inl rfl
  rw [if_neg h12]
  by_cases h13 : sig.edge - 2 < 1
  case pos => rw [if_pos h13]; exact Or.inl rfl
  rw [if_neg h13]
  try dsimp only
  repeat' first
    | exact Or.inl (refreshBankroll_positions s now bal)
    | split
  all_goals right
  all_goals refine ⟨not_le.mp h6, fun e he => ?_, ?_⟩
  all_goals try
    (have hc0 : s.positions.countP
        (fun e => decide (e.2.game_event = extractGameEvent sig.ticker)) = 0 :=
      Nat.lt_one_iff.mp (not_le.mp h8)
     simpa using List.countP_eq_zero.mp hc0 e he)
  all_goals exact ⟨_, by rw [refreshBankroll_positions s now bal], rfl⟩

lemma invAux_onSignal (s : EState) (sig : Signal) (now : ℚ) (bal : Option ℚ)
    (ok : Bool) (h : InvAux s) : InvAux (onSignal s sig now bal ok) := by
  rcases onSignal_positions_cases s sig now bal ok with hc | ⟨hlen, hfresh, p, hc, hp⟩
  · unfold InvAux at h ⊢
    rw [hc]
    exact h
  · obtain ⟨h1, h2, h3⟩ := h
    unfold InvAux
    rw [hc]
    refine ⟨?_, ?_, ?_⟩
    · intro e he
      rcases List.mem_append.mp he with he | he
      · exact h1 e he
      · rw [List.mem_singleton.mp he]
        exact hp
    · rw [List.map_append]
      rw [List.nodup_append]
      refine ⟨h2, List.nodup_singleton _, ?_⟩
      apply List.disjoint_singleton.mpr
      intro hmem
      rcases List.mem_map.mp hmem with ⟨e, he, heq⟩
      exact hfresh e he (heq.trans hp)
    · rw [List.length_append, List.length_singleton]
      omega

lemma kept_pairKeys (ex : Exits) (prices : List (String × ℚ)) (now : ℚ)
    (ps1 : List (String × Position)) :
    ((((ps1.map (processEntry ex prices now)).filter
        (fun p => p.2 = false)).map Prod.fst).map pairKey).Sublist
      (ps1.map pairKey) := by
  have h1 : (((ps1.map (processEntry ex prices now)).filter
      (fun p => p.2 = false)).map Prod.fst).map pairKey
      = ((ps1.map (processEntry ex prices now)).filter
        (fun p => p.2 = false)).map (fun p => pairKey p.1) := by
    rw [List.map_map]
    rfl
  rw [h1]
  have h2 := (List.filter_sublist (p := fun p => decide (p.2 = false))
    (ps1.map (processEntry ex prices now))).map (fun p => pairKey p.1)
  have h4 : (ps1.map (processEntry ex prices now)).map (fun p => pairKey p.1)
      = ps1.map pairKey := by
    rw [List.map_map]
    exact List.map_congr_left (fun e _ => processEntry_pairKey ex prices now e)
  rw [h4] at h2
  exact h2

lemma map_pairKey_fillUpdate (now : ℚ) (fills : List String)
    (l : List (String × Position)) :
    (l.map (fillUpdate now fills)).map pairKey = l.map pairKey := by
  rw [List.map_map]
  exact List.map_congr_left (fun e _ => fillUpdate_pairKey now fills e)

lemma checkPositions_pairKeys (s : EState) (now : ℚ) (prices : List (String × ℚ))
    (fillsRes : Option (List String)) :
    (((checkPositions s now prices fillsRes).positions).map pairKey).Sublist
      (s.positions.map pairKey) := by
  unfold checkPositions
  split_ifs with h0 h1
  · exact List.Sublist.refl _
  · cases fillsRes with
    | none =>
      dsimp only
      exact kept_pairKeys s.exits prices now s.positions
    | some fills =>
      dsimp only
      have h := kept_pairKeys s.exits prices now (s.positions.map (fillUpdate now fills))
      rw [map_pairKey_fillUpdate] at h
      exact h
  · dsimp only
    exact kept_pairKeys s.exits prices now s.positions

lemma invAux_checkPositions (s : EState) (now : ℚ) (prices : List (String × ℚ))
    (fillsRes : Option (List String)) (h : InvAux s) :
    InvAux (checkPositions s now prices fillsRes) := by
  obtain ⟨h1, h2, h3⟩ := h
  have hsub := checkPositions_pairKeys s now prices fillsRes
  refine ⟨?_, ?_, ?_⟩
  · intro e he
    have hmem : pairKey e ∈ (checkPositions s now prices fillsRes).positions.map pairKey :=
      List.mem_map.mpr ⟨e, he, rfl⟩
    have hmem2 := hsub.subset hmem
    rcases List.mem_map.mp hmem2 with ⟨e0, he0, heq⟩
    have hfst : e0.1 = e.1 := congrArg (fun q : String × String => q.1) heq
    have hsnd : e0.2.game_event = e.2.game_event :=
      congrArg (fun q : String × String => q.2) heq
    rw [← hsnd, h1 e0 he0, hfst]
  · have hevents : (checkPositions s now prices fillsRes).positions.map
        (fun e => e.2.game_event) =
        ((checkPositions s now prices fillsRes).positions.map pairKey).map Prod.snd := by
      rw [List.map_map]
      rfl
    have hevents2 : s.positions.map (fun e => e.2.game_event) =
        (s.positions.map pairKey).map Prod.snd := by
      rw [List.map_map]
      rfl
    rw [hevents]
    rw [hevents2] at h2
    exact h2.sublist (hsub.map Prod.snd)
  · have := hsub.length_le
    rw [List.length_map, List.length_map] at this
    omega

lemma invAux_step (s : EState) (op : ExOp) (h : InvAux s) : InvAux (step s op) := by
  cases op with
  | sig sg now bal ok => exact invAux_onSignal s sg now bal ok h
  | check now prices fills => exact invAux_checkPositions s now prices fills h

lemma invAux_run (ops : List ExOp) : ∀ s : EState, InvAux s → InvAux (run s ops) := by
  induction ops with
  | nil => intro s h; exact h
  | cons op ops ih =>
    intro s h
    exact ih (step s op) (invAux_step s op h)

lemma exitChain_eq_firstMatch (ex : Exits) (eu : ℕ) (le pct pk per age : ℚ) :
    exitChain ex eu le pct pk per age = firstMatch (exitRules ex eu le pct pk per age) := by
  unfold exitChain exitRules firstMatch
  by_cases h1 : 2 ≤ eu ∧ le ≤ ex.edge_exit <;>
    by_cases h2 : ex.take_profit_pct ≤ pct <;>
    by_cases h3 : ex.trailing_activate_pct ≤ pk ∧ pct ≤ pk - ex.trailing_stop_pct <;>
    by_cases h4 : pct ≤ -ex.stop_loss_pct ∨ per ≤ -MAX_LOSS_PER_CONTRACT <;>
    by_cases h5 : ex.time_exit < age <;>
    simp [h1, h2, h3, h4, h5, List.find?]

lemma evalFilledPosition_reason (ex : Exits) (pos : Position) (priceOpt : Option ℚ)
    (now : ℚ) :
    (evalFilledPosition ex pos priceOpt now).reason =
      exitChain ex pos.edge_updates pos.last_edge (pnlPctOf pos priceOpt)
        (peakStep pos.peak_pnl_pct (pnlPctOf pos priceOpt)) (pnlPerOf pos priceOpt)
        (now - pos.entry_time) := rfl

lemma exitChain_not_stop_loss_of_tp (ex : Exits) (eu : ℕ) (le pct pk per age : ℚ)
    (htp : ex.take_profit_pct ≤ pct) :
    exitChain ex eu le pct pk per age = some "model_exit" ∨
      exitChain ex eu le pct pk per age = some "take_profit" := by
  unfold exitChain
  by_cases h1 : 2 ≤ eu ∧ le ≤ ex.edge_exit
  · left; rw [if_pos h1]
  · right; rw [if_neg h1, if_pos htp]

lemma pnlPerOf_yes_none (pos : Position) (h : pos.side = "yes") :
    pnlPerOf pos none = 0 := by
  unfold pnlPerOf currentOf
  rw [h]
  simp

lemma pnlPctOf_yes_none (pos : Position) (h : pos.side = "yes") :
    pnlPctOf pos none = 0 := by
  unfold pnlPctOf
  rw [pnlPerOf_yes_none pos h]
  split_ifs with h0
  · rw [zero_div, zero_mul]
  · rfl

lemma exitChain_default_zero (eu : ℕ) (le pk age : ℚ) :
    exitChain DEFAULT_EXITS eu le 0 pk 0 age ≠ some "take_profit" ∧
    exitChain DEFAULT_EXITS eu le 0 pk 0 age ≠ some "stop_loss" ∧
    (exitChain DEFAULT_EXITS eu le 0 pk 0 age = some "trailing_stop" →
      DEFAULT_EXITS.trailing_activate_pct ≤ pk) := by
  have htp : ¬ DEFAULT_EXITS.take_profit_pct ≤ (0:ℚ) := by
    simp [DEFAULT_EXITS]
  have hsl : ¬ ((0:ℚ) ≤ -DEFAULT_EXITS.stop_loss_pct ∨
      (0:ℚ) ≤ -MAX_LOSS_PER_CONTRACT) := by
    simp [DEFAULT_EXITS, MAX_LOSS_PER_CONTRACT]
  unfold exitChain
  rw [if_neg htp, if_neg hsl]
  split_ifs with h1 h3 h5 <;> refine ⟨by simp, by simp, fun hc => ?_⟩
  · simp at hc
  · exact h3.1
  · simp at hc
  · simp at hc

end Exec

namespace Strat

lemma lookup_mem_values {α β : Type} [BEq α] (k : α) (v : β) :
    ∀ l : List (α × β), l.lookup k = some v → ∃ e, e ∈ l ∧ e.2 = v := by
  intro l
  induction l with
  | nil => intro h; simp [List.lookup] at h
  | cons e l ih =>
    intro h
    obtain ⟨a, b⟩ := e
    by_cases hk : (k == a) = true
    · refine ⟨(a, b), List.mem_cons_self _ _, ?_⟩
      have hb : some b = some v := by rw [← h]; simp [List.lookup, hk]
      exact Option.some_inj.mp hb
    · have h2 : l.lookup k = some v := by rw [← h]; simp [List.lookup, hk]
      rcases ih h2 with ⟨e, he, hv⟩
      exact ⟨e, List.mem_cons_of_mem _ he, hv⟩

lemma lookup_eraseP_ne {α β : Type} [BEq α] [LawfulBEq α] (k k2 : α) (hne : k2 ≠ k) :
    ∀ l : List (α × β), (l.eraseP (fun e => e.1 == k)).lookup k2 = l.lookup k2 := by
  intro l
  induction l with
  | nil => rfl
  | cons e l ih =>
    obtain ⟨a, b⟩ := e
    by_cases he : (((a, b) : α × β).1 == k) = true
    · have ha : a = k := eq_of_beq he
      have h2 : (k2 == a) = false := beq_eq_false_iff_ne.mpr (by rw [ha]; exact hne)
      simp [List.eraseP_cons, he, List.lookup, h2]
    · have he2 : (((a, b) : α × β).1 == k) = false := by simpa using he
      by_cases hk : (k2 == a) = true
      · simp [List.eraseP_cons, he2, List.lookup, hk]
      · simp only [List.eraseP_cons, he2, cond_false, List.lookup, hk]
        exact ih

lemma lookupD_upsert_self {α β : Type} [BEq α] [LawfulBEq α] (l : List (α × β))
    (k : α) (v d : β) : lookupD (upsert l k v) k d = v := by
  simp [lookupD, upsert, List.lookup]

lemma lookupD_upsert_ne {α β : Type} [BEq α] [LawfulBEq α] (l : List (α × β))
    (k k2 : α) (v d : β) (hne : k2 ≠ k) :
    lookupD (upsert l k v) k2 d = lookupD l k2 d := by
  have h2 : (k2 == k) = false := beq_eq_false_iff_ne.mpr hne
  simp [lookupD, upsert, List.lookup, h2, lookup_eraseP_ne k k2 hne l]

lemma upsert_values {α β : Type} [BEq α] (l : List (α × β)) (k : α) (v : β) :
    ∀ e ∈ upsert l k v, e = (k, v) ∨ e ∈ l := by
  intro e he
  rcases List.mem_cons.mp he with h | h
  · exact Or.inl h
  · exact Or.inr ((List.eraseP_sublist l).subset h)

lemma seInv_mono {st : SEState} {T T' : ℚ} (h : SEInv st T) (hT : T ≤ T') :
    SEInv st T' :=
  ⟨h.1, fun e he => le_trans (h.2.1 e he) hT, h.2.2⟩

lemma seInv_set_prev {st : SEState} {l : List (String × ℚ)} {T : ℚ}
    (h : SEInv st T) : SEInv { st with prev_prices := l } T := h

lemma seInv_set_histories {st : SEState} {ph : List (String × List PriceSnap)}
    {gs : List (String × List Game)} {eh : List (String × List (ℚ × ℚ × ℚ × ℚ))}
    {T : ℚ} (h : SEInv st T) :
    SEInv { st with price_history := ph, game_states := gs, edge_history := eh } T := h

lemma emitSignal_inv {st : SEState} {T now : ℚ} (sig : SSignal)
    (h : SEInv st T) (hT : T ≤ now) (h0 : 0 ≤ now) (hts : sig.ts = now)
    (hcd : cooldownFor sig.strategy ≤
      now - lookupD st.last_signal_ts (sig.strategy, sig.ticker) 0) :
    SEInv (emitSignal st sig) now := by
  obtain ⟨h1, h2, h3⟩ := h
  have hlast_le : ∀ k : String × String, lookupD st.last_signal_ts k 0 ≤ now := by
    intro k
    unfold lookupD
    rcases hl : st.last_signal_ts.lookup k with _ | v
    · simpa using h0
    · simp only [Option.getD_some]
      rcases lookup_mem_values k v st.last_signal_ts hl with ⟨e, he, hv⟩
      calc v = e.2 := hv.symm
        _ ≤ T := h2 e he
        _ ≤ now := hT
  refine ⟨?_, ?_, ?_⟩
  · intro s hs
    rcases List.mem_append.mp hs with hs | hs
    · by_cases hk : (s.strategy, s.ticker) = (sig.strategy, sig.ticker)
      · show s.ts ≤ lookupD (upsert st.last_signal_ts (sig.strategy, sig.ticker) sig.ts)
          (s.strategy, s.ticker) 0
        rw [hk, lookupD_upsert_self]
        rw [hts]
        exact le_trans (h1 s hs) (hlast_le _)
      · show s.ts ≤ lookupD (upsert st.last_signal_ts (sig.strategy, sig.ticker) sig.ts)
          (s.strategy, s.ticker) 0
        rw [lookupD_upsert_ne _ _ _ _ _ hk]
        exact h1 s hs
    · rw [List.mem_singleton.mp hs]
      show sig.ts ≤ lookupD (upsert st.last_signal_ts (sig.strategy, sig.ticker) sig.ts)
        (sig.strategy, sig.ticker) 0
      rw [lookupD_upsert_self]
  · intro e he
    rcases upsert_values st.last_signal_ts (sig.strategy, sig.ticker) sig.ts e he with
      hh | hh
    · rw [hh]
      show sig.ts ≤ now
      rw [hts]
    · exact le_trans (h2 e hh) hT
  · show List.Pairwise Sep (st.signals ++ [sig])
    rw [List.pairwise_append]
    refine ⟨h3, List.pairwise_singleton _ _, ?_⟩
    intro a ha b hb
    rw [List.mem_singleton.mp hb]
    intro hstrat hticker
    have hkey : ((a.strategy, a.ticker) : String × String) =
        (sig.strategy, sig.ticker) := by rw [hstrat, hticker]
    have hbound := h1 a ha
    rw [hkey] at hbound
    rw [hts, hstrat]
    linarith [hbound, hlast_le (sig.strategy, sig.ticker), hcd]

lemma checkMeanReversion_inv {st : SEState} {ticker : String} {game : Game}
    {fv edge price : ℚ} {ctx : GameCtx} {now : ℚ}
    (h : SEInv st now) (h0 : 0 ≤ now) :
    SEInv (checkMeanReversion st ticker game fv edge price ctx now) now := by
  unfold checkMeanReversion
  try dsimp only
  split_ifs with hcd <;>
    first
      | exact h
      | (try dsimp only
         refine emitSignal_inv _ h le_rfl h0 ?_ ?_
         · rfl
         · simp only [onCooldown, decide_eq_true_eq, not_lt] at hcd
           exact hcd)

lemma checkMomentum_inv {st : SEState} {ticker : String} {game : Game}
    {fv edge price : ℚ} {ctx : GameCtx} {now : ℚ}
    (h : SEInv st now) (h0 : 0 ≤ now) :
    SEInv (checkMomentum st ticker game fv edge price ctx now) now := by
  unfold checkMomentum
  try dsimp only
  split_ifs with hcd <;>
    first
      | exact h
      | (try dsimp only
         refine emitSignal_inv _ h le_rfl h0 ?_ ?_
         · rfl
         · simp only [onCooldown, decide_eq_true_eq, not_lt] at hcd
           exact hcd)

lemma checkHalftimeEdge_inv {st : SEState} {ticker : String} {game : Game}
    {fv edge price : ℚ} {ctx : GameCtx} {now : ℚ}
    (h : SEInv st now) (h0 : 0 ≤ now) :
    SEInv (checkHalftimeEdge st ticker game fv edge price ctx now) now := by
  unfold checkHalftimeEdge
  try dsimp only
  split_ifs with hcd <;>
    first
      | exact h
      | (try dsimp only
         refine emitSignal_inv _ h le_rfl h0 ?_ ?_
         · rfl
         · simp only [onCooldown, decide_eq_true_eq, not_lt] at hcd
           exact hcd)

lemma checkGammaScalp_inv {st : SEState} {ticker : String} {game : Game}
    {fv edge price : ℚ} {ctx : GameCtx} {now : ℚ}
    (h : SEInv st now) (h0 : 0 ≤ now) :
    SEInv (checkGammaScalp st ticker game fv edge price ctx now) now := by
  unfold checkGammaScalp
  try dsimp only
  split_ifs with hcd <;>
    first
      | exact h
      | (try dsimp only
         refine emitSignal_inv _ h le_rfl h0 ?_ ?_
         · rfl
         · simp only [onCooldown, decide_eq_true_eq, not_lt] at hcd
           exact hcd)

lemma checkSpreadCapture_inv {st : SEState} {ticker : String} {mkt : MarketData}
    {fv edge price : ℚ} {ctx : GameCtx} {now : ℚ}
    (h : SEInv st now) (h0 : 0 ≤ now) :
    SEInv (checkSpreadCapture st ticker mkt fv edge price ctx now) now := by
  unfold checkSpreadCapture
  try dsimp only
  split_ifs with hcd <;>
    first
      | exact h
      | (try dsimp only
         refine emitSignal_inv _ h le_rfl h0 ?_ ?_
         · rfl
         · simp only [onCooldown, decide_eq_true_eq, not_lt] at hcd
           exact hcd)

lemma checkStaleLine_inv {st : SEState} {ticker : String} {game : Game}
    {fv edge price : ℚ} {ctx : GameCtx} {now : ℚ}
    (h : SEInv st now) (h0 : 0 ≤ now) :
    SEInv (checkStaleLine st ticker game fv edge price ctx now) now := by
  unfold checkStaleLine
  try dsimp only
  split_ifs with hcd <;>
    first
      | exact h
      | (try dsimp only
         refine emitSignal_inv _ h le_rfl h0 ?_ ?_
         · rfl
         · simp only [onCooldown, decide_eq_true_eq, not_lt] at hcd
           exact hcd)

lemma checkClosingLine_inv {st : SEState} {ticker : String} {game : Game}
    {fv edge price : ℚ} {ctx : GameCtx} {now : ℚ}
    (h : SEInv st now) (h0 : 0 ≤ now) :
    SEInv (checkClosingLine st ticker game fv edge price ctx now) now := by
  unfold checkClosingLine
  try dsimp only
  split_ifs with hcd <;>
    first
      | exact h
      | (try dsimp only
         refine emitSignal_inv _ h le_rfl h0 ?_ ?_
         · rfl
         · simp only [onCooldown, decide_eq_true_eq, not_lt] at hcd
           exact hcd)

lemma onPriceUpdate_inv {st : SEState} {ticker : String} {mkt : MarketData}
    {game : Game} {fv edge : ℚ} {T now : ℚ}
    (h : SEInv st T) (hT : T ≤ now) (h0 : 0 ≤ now) :
    SEInv (onPriceUpdate st ticker mkt game fv edge now) now := by
  unfold onPriceUpdate
  exact seInv_set_prev
    (checkClosingLine_inv
      (checkStaleLine_inv
        (checkSpreadCapture_inv
          (checkGammaScalp_inv
            (checkHalftimeEdge_inv
              (checkMomentum_inv
                (checkMeanReversion_inv
                  (seInv_set_histories (seInv_mono h hT)) h0) h0) h0) h0) h0) h0) h0)

lemma seRun_pairwise : ∀ (obs : List Obs) (st : SEState) (T : ℚ),
    SEInv st T → 0 ≤ T → List.Chain (· ≤ ·) T (obs.map (fun o => o.now)) →
    List.Pairwise Sep (seRun st obs).signals := by
  intro obs
  induction obs with
  | nil => intro st T h _ _; exact h.2.2
  | cons o obs ih =>
    intro st T h h0 hchain
    rw [List.map_cons, List.chain_cons] at hchain
    obtain ⟨hTo, hrest⟩ := hchain
    exact ih (seStep st o) o.now
      (onPriceUpdate_inv h hTo (le_trans h0 hTo)) (le_trans h0 hTo) hrest

lemma seInit_inv : SEInv seInit 0 := by
  refine ⟨?_, ?_, ?_⟩ <;> simp [seInit, SEInv]

end Strat

lemma peakStep_eq_max (pk r : ℚ) : Exec.peakStep pk r = max pk r := by
  unfold Exec.peakStep
  by_cases h : pk < r
  · rw [if_pos h, max_eq_right h.le]
  · rw [if_neg h, max_eq_left (not_lt.mp h)]

lemma foldl_max_init_le (rs : List ℚ) : ∀ a : ℚ, a ≤ rs.foldl max a := by
  induction rs with
  | nil => intro a; simp
  | cons r rs ih => intro a; exact le_trans (le_max_left a r) (ih (max a r))

lemma mem_le_foldl_max (rs : List ℚ) : ∀ (a r : ℚ), r ∈ rs → r ≤ rs.foldl max a := by
  induction rs with
  | nil => intro a r h; simp at h
  | cons x xs ih =>
    intro a r h
    rcases List.mem_cons.mp h with h | h
    · subst h; exact le_trans (le_max_right a r) (foldl_max_init_le xs (max a r))
    · exact ih (max a x) r h

lemma foldl_peakStep_eq_foldl_max (rs : List ℚ) (a : ℚ) :
    rs.foldl Exec.peakStep a = rs.foldl max a := by
  have h : Exec.peakStep = (max : ℚ → ℚ → ℚ) := funext fun pk => funext fun r =>
    peakStep_eq_max pk r
  rw [h]

/-- C2 counterexample: the claim says fair_value_cents with the default home
flag and pregame_spread = 0 is strictly below 50 for every negative lead, but
at lead = -1 with 40 minutes remaining the home-advantage drift pushes the
value to at least 50. -/
theorem claim2_counterexample : 50 ≤ Model.fair_value_cents (-1) 40 true 0 := by
  apply Model.fair_value_ge_50
  apply Model.winProb_home_zero_gt_half (by norm_num)
  rw [Model.HOME_ADVANTAGE, Model.GAME_LENGTH_MIN]
  norm_num

/-- C2 amended: with pregame_spread = 0 and home = true the code adds a
home-advantage drift of 3.5·(m/40) to the lead; the sign trichotomy holds for
the effective lead (lead plus drift) rather than the raw lead, strictly at the
probability level and non-strictly (due to rounding) at the cents level. -/
theorem claim2_amended : ∀ lead m : ℝ, 0 < m →
    (0 < lead + Model.HOME_ADVANTAGE * (m / Model.GAME_LENGTH_MIN) →
      1/2 < Model.win_probability lead m true 0 ∧
        50 ≤ Model.fair_value_cents lead m true 0) ∧
    (lead + Model.HOME_ADVANTAGE * (m / Model.GAME_LENGTH_MIN) = 0 →
      Model.win_probability lead m true 0 = 1/2 ∧
        Model.fair_value_cents lead m true 0 = 50) ∧
    (lead + Model.HOME_ADVANTAGE * (m / Model.GAME_LENGTH_MIN) < 0 →
      Model.win_probability lead m true 0 < 1/2 ∧
        Model.fair_value_cents lead m true 0 ≤ 50) := by
  intro lead m hm
  refine ⟨fun h => ?_, fun h => ?_, fun h => ?_⟩
  · exact ⟨Model.winProb_home_zero_gt_half hm h,
      Model.fair_value_ge_50 (Model.winProb_home_zero_gt_half hm h)⟩
  · exact ⟨Model.winProb_home_zero_eq_half hm h,
      Model.fair_value_eq_50 (Model.winProb_home_zero_eq_half hm h)⟩
  · exact ⟨Model.winProb_home_zero_lt_half hm h,
      Model.fair_value_le_50 (Model.winProb_home_zero_lt_half hm h)⟩

/-- Witness for claim2_amended at lead = 1, m = 40. -/
theorem claim2_witness :
    (0:ℝ) < 40 ∧
    (0 < (1:ℝ) + Model.HOME_ADVANTAGE * (40 / Model.GAME_LENGTH_MIN)) ∧
    (1/2 < Model.win_probability 1 40 true 0 ∧
      50 ≤ Model.fair_value_cents 1 40 true 0) :=
  ⟨by norm_num, by rw [Model.HOME_ADVANTAGE, Model.GAME_LENGTH_MIN]; norm_num,
    (claim2_amended 1 40 (by norm_num)).1
      (by rw [Model.HOME_ADVANTAGE, Model.GAME_LENGTH_MIN]; norm_num)⟩

/-- C3 counterexample: at lead = 8, minutes_remaining = 20, pregame_spread = 0
the code does not compute the win probability as the claimed
Phi(8/(11·sqrt(0.5))): the volatility constant is 12 and a home-advantage
drift of 3.5·(20/40) is added to the lead. -/
theorem claim3_counterexample :
    Model.win_probability 8 20 true 0 ≠ Model.Phi (8 / (11 * Real.sqrt (1/2))) := by
  rw [Model.win_probability_home_zero 8 20 (by norm_num)]
  rw [if_neg Model.sigma_at_twenty_not_small]
  intro heq
  have heq2 := Model.Phi_injective heq
  have h1 : Real.sqrt (20 / Model.GAME_LENGTH_MIN) = Real.sqrt (1/2) := by
    rw [Model.GAME_LENGTH_MIN]; norm_num
  rw [h1] at heq2
  have hspos : 0 < Real.sqrt (1/2 : ℝ) := Real.sqrt_pos.mpr (by norm_num)
  rw [Model.SIGMA, Model.HOME_ADVANTAGE, Model.GAME_LENGTH_MIN] at heq2
  rw [div_eq_div_iff (by positivity) (by positivity)] at heq2
  nlinarith [hspos, heq2]

/-- C3 amended: at lead = 8, minutes_remaining = 20, pregame_spread = 0 and the
default home = true, the code computes the win probability as
Phi((8 + 3.5·(20/40)) / (12·sqrt(20/40))): sigma is 12 (not 11) and the
home-advantage drift 3.5·t is included because no pregame spread is given. -/
theorem claim3_amended :
    Model.win_probability 8 20 true 0 =
      Model.Phi ((8 + 3.5 * (20/40)) / (12 * Real.sqrt (20/40))) := by
  rw [Model.win_probability_home_zero 8 20 (by norm_num)]
  rw [if_neg Model.sigma_at_twenty_not_small]
  rw [Model.SIGMA, Model.HOME_ADVANTAGE, Model.GAME_LENGTH_MIN]

/-- C4 counterexample: the dampening weight at |S| = 8 is 0.6, not the claimed
0.5, so the weight does not decay to 50% by |S| = 8 and is not continuous
there (it jumps from 0.6 to 0.5). -/
theorem claim4_counterexample : Model.dampenFactor 8 = 0.6 ∧ (0.6:ℝ) ≠ 0.5 := by
  constructor
  · rw [Model.dampenFactor]
    norm_num
  · norm_num

/-- C4 amended: the weight is 1 for |S| ≤ 4, decays linearly as 1 - 0.1·(|S|-4)
for 4 < |S| ≤ 8 (reaching 0.6, not 0.5, at |S| = 8), and is a hard 0.5 floor
for |S| > 8, discontinuously. -/
theorem claim4_amended :
    (∀ S : ℝ, |S| ≤ 4 → Model.dampenFactor S = 1) ∧
    (∀ S : ℝ, 4 < |S| → |S| ≤ 8 → Model.dampenFactor S = 1 - 0.1 * (|S| - 4)) ∧
    (∀ S : ℝ, 8 < |S| → Model.dampenFactor S = 0.5) ∧
    Model.dampenFactor 8 = 0.6 := by
  refine ⟨fun S h => ?_, fun S h4 h8 => ?_, fun S h => ?_, ?_⟩
  · rw [Model.dampenFactor]
    simp only [if_pos h]
  · rw [Model.dampenFactor]
    rw [if_neg (not_le.mpr h4), if_pos h8]
  · rw [Model.dampenFactor]
    rw [if_neg (by linarith), if_neg (not_le.mpr h)]
  · rw [Model.dampenFactor]
    norm_num

/-- Witness for claim4_amended at S = -5 (middle linear branch). -/
theorem claim4_witness :
    (4:ℝ) < |(-5:ℝ)| ∧ |(-5:ℝ)| ≤ 8 ∧
      Model.dampenFactor (-5) = 1 - 0.1 * (|(-5:ℝ)| - 4) :=
  ⟨by norm_num, by norm_num, claim4_amended.2.1 (-5) (by norm_num) (by norm_num)⟩

/-- C7: holding minutes_remaining > 0, the home flag and the pregame spread
fixed, fair_value_cents is non-decreasing in the lead, and delta_per_point is
non-negative. -/
theorem claim7_monotone : ∀ (lead m S : ℝ) (home : Bool), 0 < m →
    Model.fair_value_cents lead m home S ≤ Model.fair_value_cents (lead + 1) m home S ∧
    0 ≤ Model.delta_per_point lead m S := by
  intro lead m S home hm
  constructor
  · exact Model.fair_value_mono_lead m S home (by linarith)
  · have h := Model.winProb_mono_lead m S true (le_of_lt (lt_add_one lead))
    rw [Model.delta_per_point]
    linarith

/-- Witness for claim7_monotone at lead = 0, m = 20, S = 0, home = true. -/
theorem claim7_witness :
    (0:ℝ) < 20 ∧
    (Model.fair_value_cents 0 20 true 0 ≤ Model.fair_value_cents (0 + 1) 20 true 0 ∧
      0 ≤ Model.delta_per_point 0 20 0) :=
  ⟨by norm_num, claim7_monotone 0 20 0 true (by norm_num)⟩

/-- C5: starting from any executor state with no open positions, any sequence
of on_signal and check_positions operations maintains: distinct tickers
(at most one position per contract), distinct game events (at most one
position per event), and at most MAX_POSITIONS = 5 positions in total. -/
theorem claim5_position_invariants : ∀ s0 : Exec.EState, s0.positions = [] →
    ∀ ops : List Exec.ExOp,
      ((Exec.run s0 ops).positions.map Prod.fst).Nodup ∧
      ((Exec.run s0 ops).positions.map (fun e => Exec.extractGameEvent e.1)).Nodup ∧
      (Exec.run s0 ops).positions.length ≤ Exec.MAX_POSITIONS := by
  intro s0 h0 ops
  have hinv : Exec.InvAux s0 := by
    refine ⟨?_, ?_, ?_⟩ <;> rw [h0] <;> simp [Exec.MAX_POSITIONS]
  obtain ⟨h1, h2, h3⟩ := Exec.invAux_run ops s0 hinv
  have hevents : (Exec.run s0 ops).positions.map (fun e => Exec.extractGameEvent e.1) =
      (Exec.run s0 ops).positions.map (fun e => e.2.game_event) :=
    List.map_congr_left (fun e he => (h1 e he).symm)
  refine ⟨?_, ?_, h3⟩
  · apply List.Nodup.of_map (f := Exec.extractGameEvent)
    rw [List.map_map]
    have hc : (Exec.run s0 ops).positions.map (Exec.extractGameEvent ∘ Prod.fst) =
        (Exec.run s0 ops).positions.map (fun e => e.2.game_event) :=
      List.map_congr_left (fun e he => (h1 e he).symm)
    rw [hc]
    exact h2
  · rw [hevents]
    exact h2

/-- Witness for claim5_position_invariants on the initial state and a concrete
two-operation run. -/
theorem claim5_witness :
    initialState.positions = [] ∧
    (((Exec.run initialState [Exec.ExOp.check 10 [] none]).positions.map Prod.fst).Nodup ∧
     ((Exec.run initialState [Exec.ExOp.check 10 [] none]).positions.map
        (fun e => Exec.extractGameEvent e.1)).Nodup ∧
     (Exec.run initialState [Exec.ExOp.check 10 [] none]).positions.length ≤
        Exec.MAX_POSITIONS) :=
  ⟨rfl, claim5_position_invariants initialState rfl [Exec.ExOp.check 10 [] none]⟩

/-- C1: for a filled position, exit evaluation applies the five rules in the
fixed source order (model exit, take profit, trailing stop, stop loss, time
exit) with first match wins, and whenever the take-profit condition holds the
recorded reason is model_exit or take_profit, never stop_loss, even if the
stop-loss condition holds simultaneously. -/
theorem claim1_exit_priority :
    (∀ (ex : Exec.Exits) (pos : Exec.Position) (priceOpt : Option ℚ) (now : ℚ),
      (Exec.evalFilledPosition ex pos priceOpt now).reason =
        Exec.firstMatch (Exec.exitRules ex pos.edge_updates pos.last_edge
          (Exec.pnlPctOf pos priceOpt)
          (Exec.peakStep pos.peak_pnl_pct (Exec.pnlPctOf pos priceOpt))
          (Exec.pnlPerOf pos priceOpt) (now - pos.entry_time))) ∧
    (∀ (ex : Exec.Exits) (pos : Exec.Position) (priceOpt : Option ℚ) (now : ℚ),
      ex.take_profit_pct ≤ Exec.pnlPctOf pos priceOpt →
      (Exec.pnlPctOf pos priceOpt ≤ -ex.stop_loss_pct ∨
        Exec.pnlPerOf pos priceOpt ≤ -Exec.MAX_LOSS_PER_CONTRACT) →
      ((Exec.evalFilledPosition ex pos priceOpt now).reason = some "model_exit" ∨
        (Exec.evalFilledPosition ex pos priceOpt now).reason = some "take_profit")) := by
  constructor
  · intro ex pos priceOpt now
    rw [Exec.evalFilledPosition_reason, Exec.exitChain_eq_firstMatch]
  · intro ex pos priceOpt now htp _
    rw [Exec.evalFilledPosition_reason]
    exact Exec.exitChain_not_stop_loss_of_tp _ _ _ _ _ _ _ htp

/-- Witness for claim1_exit_priority: with current yes price 46 and entry 40
the return is +15 percent, satisfying both the (witness) take-profit threshold
and the (witness) stop-loss threshold; the recorded reason is take_profit. -/
theorem claim1_witness :
    tpslExits.take_profit_pct ≤ Exec.pnlPctOf tpslPos (some 46) ∧
    (Exec.pnlPctOf tpslPos (some 46) ≤ -tpslExits.stop_loss_pct ∨
      Exec.pnlPerOf tpslPos (some 46) ≤ -Exec.MAX_LOSS_PER_CONTRACT) ∧
    ((Exec.evalFilledPosition tpslExits tpslPos (some 46) 1).reason = some "model_exit" ∨
      (Exec.evalFilledPosition tpslExits tpslPos (some 46) 1).reason = some "take_profit") :=
  have h1 : tpslExits.take_profit_pct ≤ Exec.pnlPctOf tpslPos (some 46) := by
    norm_num [tpslExits, tpslPos, Exec.pnlPctOf, Exec.pnlPerOf, Exec.currentOf]
  have h2 : Exec.pnlPctOf tpslPos (some 46) ≤ -tpslExits.stop_loss_pct ∨
      Exec.pnlPerOf tpslPos (some 46) ≤ -Exec.MAX_LOSS_PER_CONTRACT := by
    left
    norm_num [tpslExits, tpslPos, Exec.pnlPctOf, Exec.pnlPerOf, Exec.currentOf]
  ⟨h1, h2, claim1_exit_priority.2 tpslExits tpslPos (some 46) 1 h1 h2⟩

/-- C9 counterexample: for a no-side position with missing price the fallback
current_prices.get(ticker, entry_price) feeds the entry price into the yes
slot, so current = 100 - entry and the P&L is not 0: at entry 40 the computed
return is +50 percent and the position exits the same cycle via take_profit
under the default thresholds. -/
theorem claim9_counterexample :
    Exec.pnlPctOf noSidePos none = 50 ∧
    (Exec.evalFilledPosition Exec.DEFAULT_EXITS noSidePos none 1).reason =
      some "take_profit" := by
  have hpct : Exec.pnlPctOf noSidePos none = 50 := by
    norm_num [Exec.pnlPctOf, Exec.pnlPerOf, Exec.currentOf, noSidePos]
    rw [if_neg (by decide : ¬(("no":String) = "yes"))]
    norm_num
  refine ⟨hpct, ?_⟩
  rw [Exec.evalFilledPosition_reason, hpct]
  norm_num [Exec.peakStep, Exec.exitChain, Exec.DEFAULT_EXITS, noSidePos]

/-- C9 amended: for a filled yes-side position whose ticker is missing from
current_prices, the current value defaults to the entry price, so per-contract
P&L, total P&L and percentage return are all exactly 0 that cycle, and under
DEFAULT_EXITS the exit reason can never be take_profit or stop_loss; a
trailing stop fires only if the peak already reached the activation threshold.
For a no-side position the default maps through 100 - entry and the claim
fails (claim9_counterexample). -/
theorem claim9_amended : ∀ (pos : Exec.Position) (prices : List (String × ℚ)) (now : ℚ),
    pos.side = "yes" → Exec.lookupQ prices pos.ticker = none →
    (Exec.pnlPerOf pos (Exec.lookupQ prices pos.ticker) = 0 ∧
     Exec.pnlTotalOf pos (Exec.lookupQ prices pos.ticker) = 0 ∧
     Exec.pnlPctOf pos (Exec.lookupQ prices pos.ticker) = 0) ∧
    ((Exec.evalFilledPosition Exec.DEFAULT_EXITS pos (Exec.lookupQ prices pos.ticker)
        now).reason ≠ some "take_profit" ∧
     (Exec.evalFilledPosition Exec.DEFAULT_EXITS pos (Exec.lookupQ prices pos.ticker)
        now).reason ≠ some "stop_loss" ∧
     ((Exec.evalFilledPosition Exec.DEFAULT_EXITS pos (Exec.lookupQ prices pos.ticker)
        now).reason = some "trailing_stop" →
      Exec.DEFAULT_EXITS.trailing_activate_pct ≤
        Exec.peakStep pos.peak_pnl_pct 0)) := by
  intro pos prices now hside hlook
  rw [hlook]
  have hper := Exec.pnlPerOf_yes_none pos hside
  have hpct := Exec.pnlPctOf_yes_none pos hside
  refine ⟨⟨hper, ?_, hpct⟩, ?_⟩
  · rw [Exec.pnlTotalOf, hper, zero_mul]
  · rw [Exec.evalFilledPosition_reason, hper, hpct]
    exact Exec.exitChain_default_zero pos.edge_updates pos.last_edge
      (Exec.peakStep pos.peak_pnl_pct 0) (now - pos.entry_time)

/-- Witness for claim9_amended on a concrete yes-side position with an empty
price map. -/
theorem claim9_witness :
    yesPos.side = "yes" ∧ Exec.lookupQ [] yesPos.ticker = none ∧
    (Exec.pnlPerOf yesPos (Exec.lookupQ [] yesPos.ticker) = 0 ∧
     Exec.pnlTotalOf yesPos (Exec.lookupQ [] yesPos.ticker) = 0 ∧
     Exec.pnlPctOf yesPos (Exec.lookupQ [] yesPos.ticker) = 0) ∧
    ((Exec.evalFilledPosition Exec.DEFAULT_EXITS yesPos (Exec.lookupQ [] yesPos.ticker)
        1).reason ≠ some "take_profit" ∧
     (Exec.evalFilledPosition Exec.DEFAULT_EXITS yesPos (Exec.lookupQ [] yesPos.ticker)
        1).reason ≠ some "stop_loss" ∧
     ((Exec.evalFilledPosition Exec.DEFAULT_EXITS yesPos (Exec.lookupQ [] yesPos.ticker)
        1).reason = some "trailing_stop" →
      Exec.DEFAULT_EXITS.trailing_activate_pct ≤
        Exec.peakStep yesPos.peak_pnl_pct 0)) :=
  have hc := claim9_amended yesPos [] 1 rfl rfl
  ⟨rfl, rfl, hc.1, hc.2⟩

/-- C10: the high-water mark starts at 0 and is only ever raised: the per-cycle
update equals max, iterating it from 0 over the cycle returns yields
max(0, all returns so far), and at exit-rule evaluation time the tracked peak
equals max(previous peak, current return), is nonnegative whenever the
previous peak was, and dominates the current cycle's return. -/
theorem claim10_peak :
    (∀ pk r : ℚ, Exec.peakStep pk r = max pk r) ∧
    (∀ rs : List ℚ, rs.foldl Exec.peakStep 0 = rs.foldl max 0 ∧
      0 ≤ rs.foldl Exec.peakStep 0 ∧ ∀ r ∈ rs, r ≤ rs.foldl Exec.peakStep 0) ∧
    (∀ (ex : Exec.Exits) (pos : Exec.Position) (priceOpt : Option ℚ) (now : ℚ),
      (Exec.evalFilledPosition ex pos priceOpt now).peak =
        max pos.peak_pnl_pct (Exec.pnlPctOf pos priceOpt) ∧
      (0 ≤ pos.peak_pnl_pct →
        0 ≤ (Exec.evalFilledPosition ex pos priceOpt now).peak) ∧
      Exec.pnlPctOf pos priceOpt ≤ (Exec.evalFilledPosition ex pos priceOpt now).peak) := by
  refine ⟨peakStep_eq_max, fun rs => ?_, fun ex pos priceOpt now => ?_⟩
  · refine ⟨foldl_peakStep_eq_foldl_max rs 0, ?_, ?_⟩
    · rw [foldl_peakStep_eq_foldl_max rs 0]
      exact foldl_max_init_le rs 0
    · intro r hr
      rw [foldl_peakStep_eq_foldl_max rs 0]
      exact mem_le_foldl_max rs 0 r hr
  · have hpk : (Exec.evalFilledPosition ex pos priceOpt now).peak =
        max pos.peak_pnl_pct (Exec.pnlPctOf pos priceOpt) :=
      peakStep_eq_max _ _
    refine ⟨hpk, fun h0 => ?_, ?_⟩
    · rw [hpk]; exact le_trans h0 (le_max_left _ _)
    · rw [hpk]; exact le_max_right _ _

/-- Witness for claim10_peak on the concrete return list [3, -2] and the
concrete position yesPos. -/
theorem claim10_witness :
    ((3:ℚ) ∈ [(3:ℚ), -2] ∧ (3:ℚ) ≤ [(3:ℚ), -2].foldl Exec.peakStep 0) ∧
    (0 ≤ yesPos.peak_pnl_pct ∧
      0 ≤ (Exec.evalFilledPosition Exec.DEFAULT_EXITS yesPos none 1).peak) :=
  ⟨⟨by simp, (claim10_peak.2.1 [3, -2]).2.2 3 (by simp)⟩,
   ⟨by norm_num [yesPos],
    (claim10_peak.2.2 Exec.DEFAULT_EXITS yesPos none 1).2.1 (by norm_num [yesPos])⟩⟩

/-- C6: for any observation stream with non-decreasing, non-negative
timestamps, the strategy engine never records two signals with the same
strategy and ticker less than that strategy's cooldown apart: every detector
checks the (strategy, ticker) cooldown first and every emission records the
emission timestamp for the pair. -/
theorem claim6_cooldown : ∀ obs : List Strat.Obs,
    List.Chain (· ≤ ·) 0 (obs.map (fun o => o.now)) →
    List.Pairwise
      (fun a b => a.strategy = b.strategy → a.ticker = b.ticker →
        Strat.cooldownFor a.strategy ≤ b.ts - a.ts)
      (Strat.seRun Strat.seInit obs).signals := by
  intro obs hchain
  exact Strat.seRun_pairwise obs Strat.seInit 0 Strat.seInit_inv le_rfl hchain

/-- Witness for claim6_cooldown on a concrete sorted two-observation stream. -/
theorem claim6_witness :
    List.Chain (· ≤ ·) 0 ([obsA, obsB].map (fun o => o.now)) ∧
    List.Pairwise
      (fun a b => a.strategy = b.strategy → a.ticker = b.ticker →
        Strat.cooldownFor a.strategy ≤ b.ts - a.ts)
      (Strat.seRun Strat.seInit [obsA, obsB]).signals :=
  have hch : List.Chain (· ≤ ·) 0 ([obsA, obsB].map (fun o => o.now)) := by
    simp only [List.map_cons, List.map_nil, List.chain_cons]
    refine ⟨?_, ?_, List.Chain.nil⟩ <;> norm_num [obsA, obsB]
  ⟨hch, claim6_cooldown [obsA, obsB] hch⟩

/-- C8 counterexample: with exactly two graded P&Ls both equal to 5 the code
reports sharpe 5 (it divides by 1 when the variance is not positive), while
the claimed mean-over-sample-standard-deviation is a division by zero and
cannot equal 5. -/
theorem claim8_counterexample :
    Learner.sharpeOf [5, 5] = 5 ∧
    (Learner.sampleMean [5, 5] : ℝ) / Learner.sampleStdDev [5, 5] = 0 ∧
    (5 : ℝ) ≠ 0 := by
  have hvar : Learner.sampleVariance [5, 5] = 0 := by
    norm_num [Learner.sampleVariance, Learner.sampleMean]
  refine ⟨?_, ?_, by norm_num⟩
  · rw [Learner.sharpeOf]
    rw [if_pos (by norm_num)]
    dsimp only
    rw [hvar]
    norm_num [Learner.sampleMean]
  · rw [Learner.sampleStdDev, hvar]
    norm_num

/-- C8 amended: for at least two graded samples the reported sharpe (before
the 2-decimal display rounding) equals mean over sample standard deviation
whenever the sample variance is positive; when all graded P&Ls are equal
(variance zero) the code divides by 1 and reports the mean itself; with fewer
than two graded samples the sharpe is exactly 0; and the per-strategy score
record reports the 2-decimal rounding of this value. -/
theorem claim8_amended :
    (∀ pnls : List ℚ, 2 ≤ pnls.length → 0 < Learner.sampleVariance pnls →
      Learner.sharpeOf pnls =
        (Learner.sampleMean pnls : ℝ) / Learner.sampleStdDev pnls) ∧
    (∀ pnls : List ℚ, 2 ≤ pnls.length → Learner.sampleVariance pnls = 0 →
      Learner.sharpeOf pnls = (Learner.sampleMean pnls : ℝ)) ∧
    (∀ pnls : List ℚ, pnls.length < 2 → Learner.sharpeOf pnls = 0) ∧
    (∀ (grades : List Learner.Grade) (strat : String),
      (Learner.scoreFor (Learner.gradesFor grades strat)).sharpe =
        Learner.round2R
          (Learner.sharpeOf (Learner.gradedOf (Learner.gradesFor grades strat)))) := by
  refine ⟨fun pnls hlen hvar => ?_, fun pnls hlen hvar => ?_,
    fun pnls hlen => ?_, fun grades strat => rfl⟩
  · rw [Learner.sharpeOf, if_pos hlen]
    dsimp only
    rw [if_pos hvar, Learner.sampleStdDev]
  · rw [Learner.sharpeOf, if_pos hlen]
    dsimp only
    rw [hvar]
    norm_num
  · rw [Learner.sharpeOf, if_neg (not_le.mpr hlen)]

/-- Witness for claim8_amended on the graded P&L lists [1, 3] (positive
variance) and [2] (fewer than two samples). -/
theorem claim8_witness :
    (2 ≤ ([1, 3] : List ℚ).length ∧ 0 < Learner.sampleVariance [1, 3] ∧
      Learner.sharpeOf [1, 3] =
        (Learner.sampleMean [1, 3] : ℝ) / Learner.sampleStdDev [1, 3]) ∧
    (([2] : List ℚ).length < 2 ∧ Learner.sharpeOf [2] = 0) :=
  have h1 : 2 ≤ ([1, 3] : List ℚ).length := by norm_num
  have h2 : 0 < Learner.sampleVariance [1, 3] := by
    norm_num [Learner.sampleVariance, Learner.sampleMean]
  have h3 : ([2] : List ℚ).length < 2 := by norm_num
  ⟨⟨h1, h2, claim8_amended.1 [1, 3] h1 h2⟩, ⟨h3, claim8_amended.2.2.1 [2] h3⟩⟩
